import Mathlib

/-!
Verification of the Musinsa shopping-assistant extraction and scoring pipeline.

The Python source (`price_rating_comparison.py`, `preference_based_recommendation.py`)
is shallowly embedded here: free text is a `List Char`, the regular-expression
passes of the source are embedded as explicit character-level matchers (one per
source pattern, transcribed from the pattern strings), machine integers are `Int`,
and the source's floating-point arithmetic is idealised as `Rat` with explicit
truncation (`Int.floor` for Python `int(...)`) and banker's rounding
(`roundHalfEven` for Python `round(...)`).
-/

namespace Musinsa

/-! ## Basic string utilities (Python `str` operations) -/

/-- Python `\s` (ASCII whitespace; the repository's texts use plain spaces). -/
def isPySpace (c : Char) : Bool :=
  c = ' ' || c = '\t' || c = '\n' || c = '\r' || c = '\x0b' || c = '\x0c'

/-- Python `\d` restricted to ASCII digits (the only digits in this domain). -/
def isDigitC (c : Char) : Bool :=
  '0' ≤ c && c ≤ '9'

/-- Python `str.lower()` (ASCII case folding; Hangul is unaffected, as in Python). -/
def lowerStr (s : List Char) : List Char :=
  s.map Char.toLower

/-- Python `needle in hay` substring test. -/
def strHasSub : List Char → List Char → Bool
  | hay, needle =>
    needle.isPrefixOf hay ||
      (match hay with
       | [] => false
       | _ :: t => strHasSub t needle)

/-- Python `hay.find(needle)`: index of the first occurrence. -/
def strFind : List Char → List Char → Option Nat
  | hay, needle =>
    if needle.isPrefixOf hay then some 0
    else match hay with
      | [] => none
      | _ :: t => (strFind t needle).map (· + 1)

/-- Greedy `\s*`. -/
def dropSpaces (s : List Char) : List Char :=
  s.dropWhile isPySpace

/-- Python `min` over a nonempty list, `none` on the empty list. -/
def listMin? : List Int → Option Int
  | [] => none
  | x :: xs => some (xs.foldl min x)

/-- Python `max` over a nonempty list, `none` on the empty list. -/
def listMax? : List Int → Option Int
  | [] => none
  | x :: xs => some (xs.foldl max x)

/-- Python truthiness of an optional integer (`None` and `0` are falsy). -/
def pyTruthyZ : Option Int → Bool
  | none => false
  | some v => v ≠ 0

/-- Python truthiness of an optional rational (`None` and `0.0` are falsy). -/
def pyTruthyQ : Option Rat → Bool
  | none => false
  | some v => v ≠ 0

/-- Round to the nearest integer, ties to even (Python `round`). -/
def roundHalfEven (q : Rat) : Int :=
  let f := Int.floor q
  let r := q - f
  if r < 1/2 then f
  else if r > 1/2 then f + 1
  else if f % 2 = 0 then f else f + 1

/-- Python `round(q, 2)`. -/
def round2 (q : Rat) : Rat := (roundHalfEven (q * 100) : Rat) / 100

/-- Python `round(q, 1)`. -/
def round1 (q : Rat) : Rat := (roundHalfEven (q * 10) : Rat) / 10

/-- Value of a digit character. -/
def digitVal (c : Char) : Nat := c.toNat - '0'.toNat

/-- Python `int(s)` on a string expected to be all digits; `none` when `int`
would raise `ValueError` (empty or non-digit input). -/
def parseIntOpt (s : List Char) : Option Int :=
  if s ≠ [] && s.all isDigitC then
    some (s.foldl (fun acc c => acc * 10 + (digitVal c : Int)) 0)
  else none

/-- Python `s.replace(",", "").replace(".", "")`. -/
def stripCommaDot (s : List Char) : List Char :=
  s.filter (fun c => c ≠ ',' && c ≠ '.')

/-- Python `float(s)` on a string drawn from `[\d.]+`: at most one dot and at
least one digit, otherwise `ValueError` (modelled as `none`). -/
def parseFloat? (s : List Char) : Option Rat :=
  if (s.filter (· = '.')).length ≤ 1 && s.any isDigitC && s.all (fun c => isDigitC c || c = '.') then
    let intPart := s.takeWhile isDigitC
    let rest := s.drop intPart.length
    let fracPart := rest.drop 1
    let ip : Int := intPart.foldl (fun acc c => acc * 10 + (digitVal c : Int)) 0
    let fp : Int := fracPart.foldl (fun acc c => acc * 10 + (digitVal c : Int)) 0
    some ((ip : Rat) + (fp : Rat) / ((10 : Rat) ^ fracPart.length))
  else none

/-! ## Pattern matchers

Each Python regular expression of the source is embedded as a matcher
`List Char → Option (List Char × List Char)` that tries the pattern at the start
of the input and, on success, returns the first capture group together with the
remaining input after the whole match.  Greedy sub-matches (`\s*`, digit runs,
`(?:,\d{3})*`) are consumed deterministically; for the patterns of the source
this agrees with Python's backtracking because no later pattern element can
match a character a greedy element gave up (the one exception, `[\d.]+` followed
by a literal `5`, is handled by `classBacktrack`). -/

/-- Match a literal string (case-sensitive). -/
def eatLit (lit : List Char) (s : List Char) : Option (List Char) :=
  if lit.isPrefixOf s then some (s.drop lit.length) else none

/-- Match a literal string case-insensitively (`re.IGNORECASE`). -/
def eatLitIC (lit : List Char) (s : List Char) : Option (List Char) :=
  if (lowerStr lit).isPrefixOf (lowerStr (s.take lit.length)) && lit.length ≤ s.length then
    some (s.drop lit.length)
  else none

/-- Match one exact character. -/
def eatChar (c : Char) : List Char → Option (List Char)
  | x :: r => if x = c then some r else none
  | [] => none

/-- `(?:a|b|...)`: ordered alternation over literals, first match wins. -/
def eatAlt : List (List Char) → List Char → Option (List Char)
  | [], _ => none
  | lit :: rest, s =>
    match eatLit lit s with
    | some r => some r
    | none => eatAlt rest s

/-- `(?:a|b|...)` with `re.IGNORECASE`. -/
def eatAltIC : List (List Char) → List Char → Option (List Char)
  | [], _ => none
  | lit :: rest, s =>
    match eatLitIC lit s with
    | some r => some r
    | none => eatAltIC rest s

/-- `[:]?`: optionally consume one colon. -/
def eatOptColon (s : List Char) : List Char :=
  match s with
  | ':' :: r => r
  | _ => s

/-- `\s*[:]?\s*`, the separator between a keyword and a number in the source. -/
def eatSep (s : List Char) : List Char :=
  dropSpaces (eatOptColon (dropSpaces s))

/-- Greedy `\d{1,n}`. -/
def takeDigitsUpTo : Nat → List Char → (List Char × List Char)
  | 0, s => ([], s)
  | n + 1, s =>
    match s with
    | c :: r =>
      if isDigitC c then
        let (ds, rest) := takeDigitsUpTo n r
        (c :: ds, rest)
      else ([], s)
    | [] => ([], [])

/-- Greedy `\d+` (at least one digit). -/
def takeDigits1 (s : List Char) : Option (List Char × List Char) :=
  let ds := s.takeWhile isDigitC
  if ds = [] then none else some (ds, s.dropWhile isDigitC)

/-- Greedy `(?:,\d{3})*`: zero or more atomic groups of a comma and exactly
three digits. -/
def starComma3 : List Char → (List Char × List Char)
  | ',' :: a :: b :: c :: r =>
    if isDigitC a && isDigitC b && isDigitC c then
      let (gs, fin) := starComma3 r
      (',' :: a :: b :: c :: gs, fin)
    else ([], ',' :: a :: b :: c :: r)
  | s => ([], s)

/-- Greedy `(?:\.\d+)?`. -/
def optFrac (s : List Char) : (List Char × List Char) :=
  match s with
  | '.' :: r =>
    match takeDigits1 r with
    | some (ds, rest) => ('.' :: ds, rest)
    | none => ([], s)
  | _ => ([], s)

/-- `(\d{1,3}(?:,\d{3})*(?:\.\d+)?)`: the number shape used by all price
patterns.  Returns the matched text and the remainder. -/
def matchNUM (s : List Char) : Option (List Char × List Char) :=
  match takeDigitsUpTo 3 s with
  | ([], _) => none
  | (ds, r1) =>
    let (gs, r2) := starComma3 r1
    let (fs, r3) := optFrac r2
    some (ds ++ gs ++ fs, r3)

/-- `(\d{1,3}(?:,\d{3})*)`: the number shape of the shipping-cost patterns
(no decimal part). -/
def matchNUMnc (s : List Char) : Option (List Char × List Char) :=
  match takeDigitsUpTo 3 s with
  | ([], _) => none
  | (ds, r1) =>
    let (gs, r2) := starComma3 r1
    some (ds ++ gs, r2)

/-- The matcher type: try a pattern at the start of the input, returning the
first capture group and the remainder after the whole match. -/
abbrev Matcher := List Char → Option (List Char × List Char)

/-- `re.findall` (one capture group per pattern): scan left to right, record a
capture at each leftmost match, resume after the matched text.  All matchers in
this development consume at least one character on success, so fuel
`s.length + 1` is sufficient. -/
def findAllAux (m : Matcher) : Nat → List Char → List (List Char)
  | 0, _ => []
  | fuel + 1, s =>
    (m s).elim
      (match s with
       | [] => []
       | _ :: t => findAllAux m fuel t)
      (fun x => x.1 :: findAllAux m fuel x.2)

def findAll (m : Matcher) (s : List Char) : List (List Char) :=
  findAllAux m (s.length + 1) s

/-- `re.finditer`: like `findAll`, additionally reporting `match.start()` and
`match.end()` of the full match. -/
def findAllPosAux (m : Matcher) : Nat → Nat → List Char → List (List Char × Nat × Nat)
  | 0, _, _ => []
  | fuel + 1, i, s =>
    (m s).elim
      (match s with
       | [] => []
       | _ :: t => findAllPosAux m fuel (i + 1) t)
      (fun x =>
        (x.1, i, i + (s.length - x.2.length))
          :: findAllPosAux m fuel (i + (s.length - x.2.length)) x.2)

def findAllPos (m : Matcher) (s : List Char) : List (List Char × Nat × Nat) :=
  findAllPosAux m (s.length + 1) 0 s

/-- Backtracking over the greedy character class `[\d.]+`: candidates are tried
longest first; `revPre` is the reversed text consumed so far. -/
def classBacktrackRev (tail : List Char → Option (List Char)) :
    List Char → List Char → Option (List Char × List Char)
  | [], _ => none
  | c :: revPre, rest =>
    match tail rest with
    | some r => some ((c :: revPre).reverse, r)
    | none => classBacktrackRev tail revPre (c :: rest)

/-- `([\d.]+)` followed by `tail`, with Python-style backtracking on the length
of the class match. -/
def matchDotNumThen (tail : List Char → Option (List Char)) (s : List Char) :
    Option (List Char × List Char) :=
  let cls := fun c => isDigitC c || c = '.'
  let pre := s.takeWhile cls
  if pre = [] then none
  else classBacktrackRev tail pre.reverse (s.drop pre.length)

/-- A "number followed by a currency unit" occurrence at the head of the text:
a digit followed (after whitespace) by `원`, or `₩` followed (after whitespace)
by a digit.  Every price pattern of the source requires one of these two shapes
somewhere in its match. -/
def numCurrencyAt (c : Char) (rest : List Char) : Bool :=
  (isDigitC c && ((dropSpaces rest).head? = some '원'))
  || (c = '₩' && (match (dropSpaces rest).head? with
      | some d => isDigitC d
      | none => false))

/-- The text contains a number-plus-currency-unit occurrence. -/
def hasNumCurrency : List Char → Bool
  | [] => false
  | c :: r => numCurrencyAt c r || hasNumCurrency r

namespace PriceRating

/-! ### `price_rating_comparison.py` -/

/-- One Tavily search hit (`result.get("url"/"title"/"content")`). -/
structure RawResult where
  url : String
  title : String
  content : String
  raw_image_url : Option String
deriving DecidableEq

/-- The classification on lines 157–163 (and 91–99): a result is a Musinsa
result when `"musinsa" in url or "무신사" in content.lower() or "musinsa" in
content.lower()` (the url is already lowercased by the source). -/
def isMusinsaResult (r : RawResult) : Bool :=
  strHasSub (lowerStr r.url.toList) "musinsa".toList
  || strHasSub (lowerStr r.content.toList) "무신사".toList
  || strHasSub (lowerStr r.content.toList) "musinsa".toList

/-- Lines 152–165: accumulate `musinsa_text` and `general_text`, each result
contributing `" " + content` to its bucket.  (The source also collects
`musinsa_urls`, which does not flow into the returned `price_info`.) -/
def bucketTexts (rs : List RawResult) : List Char × List Char :=
  rs.foldl
    (fun acc r =>
      if isMusinsaResult r then (acc.1 ++ ' ' :: r.content.toList, acc.2)
      else (acc.1, acc.2 ++ ' ' :: r.content.toList))
    ([], [])

/-- Line 168: `combined_text = musinsa_text if musinsa_text else general_text`. -/
def combinedTextOf (rs : List RawResult) : List Char :=
  let b := bucketTexts rs
  if b.1 ≠ [] then b.1 else b.2

/-! The five `price_keywords` patterns (lines 172–178). -/

def patPrice1 : Matcher := fun s =>
  match eatAlt ["가격".toList, "판매가격".toList, "판매가".toList, "현재가격".toList,
      "현재가".toList, "최저가".toList, "할인가격".toList, "할인가".toList,
      "최종가격".toList, "최종가".toList] s with
  | none => none
  | some s1 =>
    match matchNUM (eatSep s1) with
    | none => none
    | some (cap, r) =>
      match eatChar '원' (dropSpaces r) with
      | none => none
      | some rest => some (cap, rest)

def patPrice2 : Matcher := fun s =>
  match matchNUM s with
  | none => none
  | some (cap, r) =>
    match eatChar '원' (dropSpaces r) with
    | none => none
    | some r2 =>
      match eatAlt ["가격".toList, "판매가격".toList, "판매가".toList, "현재가격".toList,
          "할인가격".toList] (dropSpaces r2) with
      | none => none
      | some rest => some (cap, rest)

def patPrice3 : Matcher := fun s =>
  match eatLitIC "price".toList s with
  | none => none
  | some s1 =>
    match matchNUM (eatSep s1) with
    | none => none
    | some (cap, r) =>
      match eatChar '원' (dropSpaces r) with
      | none => none
      | some rest => some (cap, rest)

def patPrice4 : Matcher := fun s =>
  match eatChar '₩' s with
  | none => none
  | some s1 =>
    match matchNUM (dropSpaces s1) with
    | none => none
    | some (cap, r) =>
      match eatAltIC ["가격".toList, "price".toList] (dropSpaces r) with
      | none => none
      | some rest => some (cap, rest)

def patPrice5 : Matcher := fun s =>
  match eatAlt ["원가".toList, "정가".toList, "할인전가격".toList, "할인 전 가격".toList] s with
  | none => none
  | some s1 =>
    match matchNUM (eatSep s1) with
    | none => none
    | some (cap, r) =>
      match eatChar '원' (dropSpaces r) with
      | none => none
      | some rest => some (cap, rest)

def priceKeywordPatterns : List Matcher :=
  [patPrice1, patPrice2, patPrice3, patPrice4, patPrice5]

/-! The two bare `price_patterns` (lines 192–195). -/

def patBare1 : Matcher := fun s =>
  match matchNUM s with
  | none => none
  | some (cap, r) =>
    match eatChar '원' (dropSpaces r) with
    | none => none
    | some rest => some (cap, rest)

def patBare2 : Matcher := fun s =>
  match eatChar '₩' s with
  | none => none
  | some s1 =>
    match matchNUM (dropSpaces s1) with
    | none => none
    | some (cap, rest) => some (cap, rest)

/-- Line 186 / 206: parse a capture with `int(match.replace(",", "").replace(".", ""))`
and keep it when `5000 <= price <= 5000000`. -/
def priceInRange (cap : List Char) : Option Int :=
  match parseIntOpt (stripCommaDot cap) with
  | some p => if 5000 ≤ p ∧ p ≤ 5000000 then some p else none
  | none => none

/-- Lines 180–189: keyword-anchored prices. -/
def contextPricesOf (t : List Char) : List Int :=
  priceKeywordPatterns.flatMap (fun m => (findAll m t).filterMap priceInRange)

def excludeKeywords : List String :=
  ["리뷰", "review", "후기", "평점", "rating", "점수", "score",
   "배송비", "배송", "shipping", "delivery",
   "할인율", "할인", "discount", "dc",
   "수량", "quantity", "재고", "stock",
   "년", "월", "일", "year", "month", "day"]

def priceKeywordsFound : List String :=
  ["가격", "price", "원가", "정가", "판매가", "할인가", "현재가", "최저가", "최종가"]

/-- Lines 200–242: one bare-price candidate, with the ±30-character context
window, the exclusion-keyword proximity test (distance < 20) and the
price-keyword tag. -/
def candidateOf (t : List Char) (cap : List Char) (mstart mend : Nat) :
    Option (Int × Bool × Nat) :=
  match parseIntOpt (stripCommaDot cap) with
  | none => none
  | some price =>
    if 5000 ≤ price ∧ price ≤ 5000000 then
      let ctxStart := mstart - 30
      let ctxEnd := min t.length (mend + 30)
      let context := lowerStr ((t.drop ctxStart).take (ctxEnd - ctxStart))
      let pricePos : Int := (mstart : Int) - (ctxStart : Int)
      let skip := excludeKeywords.any fun kw =>
        match strFind context kw.toList with
        | some kp => ((kp : Int) - pricePos).natAbs < 20
        | none => false
      if skip then none
      else
        let hasKw := priceKeywordsFound.any fun kw => strHasSub context kw.toList
        some (price, hasKw, mstart)
    else none

/-- `all_price_candidates` before sorting (lines 197–245). -/
def candidatesOf (t : List Char) : List (Int × Bool × Nat) :=
  [patBare1, patBare2].flatMap fun m =>
    (findAllPos m t).filterMap fun x => candidateOf t x.1 x.2.1 x.2.2

/-- Lexicographic order on the sort key `(not has_price_keyword, position)`
(line 248). -/
def candKeyLe (a b : Int × Bool × Nat) : Bool :=
  (!a.2.1 == false && !b.2.1 == true)
  || (!a.2.1 == !b.2.1 && a.2.2 ≤ b.2.2)

/-- Stable ascending insertion used to model Python's stable `list.sort`. -/
def insertCand (x : Int × Bool × Nat) : List (Int × Bool × Nat) → List (Int × Bool × Nat)
  | [] => [x]
  | y :: t => if candKeyLe x y then x :: y :: t else y :: insertCand x t

/-- Line 248: `all_price_candidates.sort(key=lambda x: (not x[1], x[2]))`. -/
def sortedCandidatesOf (t : List Char) : List (Int × Bool × Nat) :=
  (candidatesOf t).foldr insertCand []

/-- Ascending insertion for `sorted(...)` on integers. -/
def insertAscInt (x : Int) : List Int → List Int
  | [] => [x]
  | y :: t => if x ≤ y then x :: y :: t else y :: insertAscInt x t

/-- Python `sorted(set(l))`. -/
def dedupSortAsc (l : List Int) : List Int :=
  l.dedup.foldr insertAscInt []

/-- Lines 250–275: choose `current_price` (always also assigned to
`final_price` by the source). -/
def currentPriceOf (t : List Char) : Option Int :=
  match listMin? (contextPricesOf t) with
  | some m => some m
  | none =>
    let cands := sortedCandidatesOf t
    if cands = [] then none
    else
      let keywordPrices := (cands.filter fun c => c.2.1).map fun c => c.1
      match listMin? keywordPrices with
      | some m => some m
      | none =>
        let sortedPrices := dedupSortAsc (cands.map fun c => c.1)
        match sortedPrices with
        | a :: b :: _ => if 5000 ≤ b then some b else some a
        | [a] => some a
        | [] => none

/-! The two `original_price_patterns` (lines 278–281). -/

def patOrig1 : Matcher := fun s =>
  match eatAlt ["원가".toList, "정가".toList, "할인전가격".toList, "할인 전 가격".toList,
      "기존가격".toList] s with
  | none => none
  | some s1 =>
    match matchNUM (eatSep s1) with
    | none => none
    | some (cap, r) =>
      match eatChar '원' (dropSpaces r) with
      | none => none
      | some rest => some (cap, rest)

def patOrig2 : Matcher := fun s =>
  match matchNUM s with
  | none => none
  | some (cap, r) =>
    match eatChar '원' (dropSpaces r) with
    | none => none
    | some r2 =>
      match eatAlt ["원가".toList, "정가".toList, "할인전".toList] (dropSpaces r2) with
      | none => none
      | some rest => some (cap, rest)

/-- Lines 283–292: candidate original (pre-discount) prices. -/
def originalPricesOf (t : List Char) : List Int :=
  [patOrig1, patOrig2].flatMap fun m => (findAll m t).filterMap priceInRange

/-! The three `discount_patterns` (lines 301–305). -/

def patDisc1 : Matcher := fun s =>
  match takeDigits1 s with
  | none => none
  | some (cap, r) =>
    match eatChar '%' r with
    | none => none
    | some r2 =>
      match eatAltIC ["할인".toList, "OFF".toList, "DC".toList, "discount".toList]
          (dropSpaces r2) with
      | none => none
      | some rest => some (cap, rest)

def patDisc2 : Matcher := fun s =>
  match eatAltIC ["할인".toList, "discount".toList] s with
  | none => none
  | some s1 =>
    match takeDigits1 (dropSpaces s1) with
    | none => none
    | some (cap, r) =>
      match eatChar '%' r with
      | none => none
      | some rest => some (cap, rest)

def patDisc3 : Matcher := fun s =>
  match takeDigits1 s with
  | none => none
  | some (cap, r) =>
    match eatChar '%' r with
    | none => none
    | some r2 =>
      match eatChar '↓' (dropSpaces r2) with
      | none => none
      | some rest => some (cap, rest)

/-- Lines 307–310: discount rates, kept when `1 <= int(match) <= 99`. -/
def discountRatesOf (t : List Char) : List Int :=
  [patDisc1, patDisc2, patDisc3].flatMap fun m =>
    (findAll m t).filterMap fun cap =>
      match parseIntOpt cap with
      | some d => if 1 ≤ d ∧ d ≤ 99 then some d else none
      | none => none

/-- `shipping_cost` is an integer amount or the string sentinel `"착불"`
(cash on delivery). -/
inductive ShippingCost where
  | amount (v : Int)
  | cod
deriving DecidableEq

/-! The `shipping_patterns` (lines 326–331); the last two have no capture
group, so `findall` returns the full matched text for them. -/

def patShip1 : Matcher := fun s =>
  match eatLit "배송비".toList s with
  | none => none
  | some s1 =>
    match matchNUMnc (eatSep s1) with
    | none => none
    | some (cap, r) =>
      match eatChar '원' (dropSpaces r) with
      | none => none
      | some rest => some (cap, rest)

def patShip2 : Matcher := fun s =>
  match eatLit "배송".toList s with
  | none => none
  | some s1 =>
    match matchNUMnc (eatSep s1) with
    | none => none
    | some (cap, r) =>
      match eatChar '원' (dropSpaces r) with
      | none => none
      | some rest => some (cap, rest)

def patShipFree : Matcher := fun s =>
  match eatLit "무료배송".toList s with
  | none => none
  | some r => some ("무료배송".toList, r)

def patShipCod : Matcher := fun s =>
  match eatLit "착불".toList s with
  | none => none
  | some r => some ("착불".toList, r)

/-- Lines 338–347: first pattern with a first match that parses as an `int`
within `<= 50000` wins; a parse failure moves on to the next pattern. -/
def shippingLoop : List Matcher → List Char → Option ShippingCost
  | [], _ => none
  | m :: rest, t =>
    match findAll m t with
    | [] => shippingLoop rest t
    | cap :: _ =>
      match parseIntOpt (cap.filter (· ≠ ',')) with
      | some v => if v ≤ 50000 then some (.amount v) else shippingLoop rest t
      | none => shippingLoop rest t

/-- Lines 333–347: shipping-cost extraction. -/
def shippingOf (t : List Char) : Option ShippingCost :=
  if strHasSub t "무료배송".toList || strHasSub t "무료 배송".toList
      || strHasSub (lowerStr t) "free shipping".toList then
    some (.amount 0)
  else if strHasSub t "착불".toList || strHasSub t "착불배송".toList then
    some .cod
  else
    shippingLoop [patShip1, patShip2, patShipFree, patShipCod] t

structure PriceInfo where
  current_price : Option Int
  original_price : Option Int
  discount_rate : Option Rat
  shipping_cost : Option ShippingCost
  final_price : Option Int
deriving DecidableEq

/-- `extract_price_info` (lines 133–349).  `final_price` is assigned together
with `current_price` in every branch of the source, always with the same value.
Python `int(x)` on the positive float of line 318 is truncation, i.e. `Int.floor`;
the float arithmetic is idealised as exact rational arithmetic. -/
def extract_price_info (search_results : List RawResult) : PriceInfo :=
  let t := combinedTextOf search_results
  let cur := currentPriceOf t
  let orig0 : Option Int := listMax? (originalPricesOf t)
  let dr0 : Option Rat := (listMax? (discountRatesOf t)).map (fun d => (d : Rat))
  let recon : Option Int × Option Rat :=
    if pyTruthyZ cur && pyTruthyQ dr0 && !pyTruthyZ orig0 then
      (some (Int.floor ((cur.getD 0 : Rat) / (1 - (dr0.getD 0) / 100))), dr0)
    else if pyTruthyZ orig0 && pyTruthyZ cur then
      if cur.getD 0 < orig0.getD 0 then
        (orig0, some (round1 ((1 - (cur.getD 0 : Rat) / (orig0.getD 0 : Rat)) * 100)))
      else (orig0, dr0)
    else (orig0, dr0)
  { current_price := cur
    original_price := recon.1
    discount_rate := recon.2
    shipping_cost := shippingOf t
    final_price := cur }

/-! The six `musinsa_patterns` for ratings (lines 384–391) and the review-count
patterns (lines 409–413).  These `findall` calls use no `re.IGNORECASE` except
the review patterns. -/

/-- `\s*/?\s*5`, the common tail of the rating patterns. -/
def ratingTail (s : List Char) : Option (List Char) :=
  let s1 := dropSpaces s
  let s2 := match s1 with
    | '/' :: r => r
    | _ => s1
  eatChar '5' (dropSpaces s2)

def patRate1 : Matcher := fun s =>
  match eatLit "무신사".toList s with
  | none => none
  | some s1 =>
    match eatLit "평점".toList (dropSpaces s1) with
    | none => none
    | some s2 =>
      match eatChar ':' (dropSpaces s2) with
      | none => none
      | some s3 => matchDotNumThen ratingTail (dropSpaces s3)

def patRate2 : Matcher := fun s =>
  match eatLit "Musinsa".toList s with
  | none => none
  | some s1 =>
    match eatLit "평점".toList (dropSpaces s1) with
    | none => none
    | some s2 =>
      match eatChar ':' (dropSpaces s2) with
      | none => none
      | some s3 => matchDotNumThen ratingTail (dropSpaces s3)

def patRate3 : Matcher := fun s =>
  match eatLit "무신사".toList s with
  | none => none
  | some s1 => matchDotNumThen ratingTail (dropSpaces s1)

def patRate4 : Matcher := fun s =>
  match eatLit "Musinsa".toList s with
  | none => none
  | some s1 =>
    match eatChar ':' (dropSpaces s1) with
    | none => none
    | some s2 => matchDotNumThen ratingTail (dropSpaces s2)

def patRate5 : Matcher := fun s =>
  match eatLit "평점".toList s with
  | none => none
  | some s1 =>
    match eatChar ':' (dropSpaces s1) with
    | none => none
    | some s2 => matchDotNumThen ratingTail (dropSpaces s2)

/-- `([\d.]+)\s*점\s*/?\s*5`. -/
def patRate6 : Matcher := fun s =>
  matchDotNumThen
    (fun r =>
      match eatChar '점' (dropSpaces r) with
      | none => none
      | some r2 => ratingTail r2)
    s

def ratingPatterns : List Matcher :=
  [patRate1, patRate2, patRate3, patRate4, patRate5, patRate6]

/-- Lines 393–402: all pattern matches parsed with `float(...)` and kept when
`0 <= rating <= 5` (a `float` parse failure is skipped by the `except`). -/
def ratingsOf (t : List Char) : List Rat :=
  ratingPatterns.flatMap fun m =>
    (findAll m t).filterMap fun cap =>
      match parseFloat? cap with
      | some r => if 0 ≤ r ∧ r ≤ 5 then some r else none
      | none => none

def patReview1 : Matcher := fun s =>
  match eatLit "리뷰".toList s with
  | none => none
  | some s1 =>
    match takeDigits1 (eatSep s1) with
    | none => none
    | some (cap, rest) => some (cap, rest)

def patReview2 : Matcher := fun s =>
  match eatLit "후기".toList s with
  | none => none
  | some s1 =>
    match takeDigits1 (eatSep s1) with
    | none => none
    | some (cap, rest) => some (cap, rest)

/-- `review[s]?\s*[:]?\s*(\d+)` with `re.IGNORECASE`. -/
def patReview3 : Matcher := fun s =>
  match eatLitIC "review".toList s with
  | none => none
  | some s1 =>
    let s2 := match s1 with
      | c :: r => if c.toLower = 's' then r else s1
      | [] => s1
    match takeDigits1 (eatSep s2) with
    | none => none
    | some (cap, rest) => some (cap, rest)

/-- Lines 415–418: review counts (`int(match)` where `match.isdigit()`). -/
def reviewCountsOf (t : List Char) : List Int :=
  [patReview1, patReview2, patReview3].flatMap fun m =>
    (findAll m t).filterMap parseIntOpt

structure RatingInfo where
  musinsa_rating : Option Rat
  average_rating : Option Rat
  review_count : Option Int
deriving DecidableEq

/-- `extract_rating_info` (lines 351–423).  The bucketing into
`musinsa_text`/`general_text` (lines 368–381) is identical to the one in
`extract_price_info`, so `combinedTextOf` is reused. -/
def extract_rating_info (search_results : List RawResult) : RatingInfo :=
  let t := combinedTextOf search_results
  let ratings := ratingsOf t
  let mr : Option Rat :=
    if ratings ≠ [] then some (round2 (ratings.sum / (ratings.length : Rat))) else none
  { musinsa_rating := mr
    average_rating := mr
    review_count := listMax? (reviewCountsOf t) }

/-! `calculate_value_score` (lines 462–498). -/

/-- Lines 475–482: price score, `max(0, 50 - (price/10000)*0.5)`, default 25. -/
def priceComponent (price_info : PriceInfo) : Rat :=
  if pyTruthyZ price_info.final_price then
    max 0 (50 - ((price_info.final_price.getD 0 : Rat) / 10000) * (1 / 2))
  else 25

/-- Lines 484–490: rating score, `(rating/5.0)*50`, default 25. -/
def ratingComponent (rating_info : RatingInfo) : Rat :=
  if pyTruthyQ rating_info.musinsa_rating then
    (rating_info.musinsa_rating.getD 0 / 5) * 50
  else 25

/-- Lines 492–496: discount bonus, `min(10, discount*0.2)`, absent means 0. -/
def discountBonus (price_info : PriceInfo) : Rat :=
  if pyTruthyQ price_info.discount_rate then
    min 10 (price_info.discount_rate.getD 0 * (1 / 5))
  else 0

/-- Lines 462–498: value score, `round(score, 2)` of the accumulated sum. -/
def calculate_value_score (price_info : PriceInfo) (rating_info : RatingInfo) : Rat :=
  round2 (priceComponent price_info + ratingComponent rating_info + discountBonus price_info)

/-- One entry of `products_data` (lines 533–539). -/
structure ProductData where
  name : String
  price_info : PriceInfo
  rating_info : RatingInfo
  specs : String
  value_score : Rat
deriving DecidableEq

/-- Line 598: `winner = product1 if product1["value_score"] > product2["value_score"]
else product2`. -/
def winnerOf (product1 product2 : ProductData) : ProductData :=
  if product2.value_score < product1.value_score then product1 else product2

/-- Python `f"{q:.1f}"` for the nonnegative scores of this pipeline. -/
def formatQ1 (q : Rat) : String :=
  let n := roundHalfEven (q * 10)
  toString (n / 10) ++ "." ++ toString (n % 10)

/-- Lines 599–614: the `winner_reason` string. -/
def winnerReason (product1 product2 : ProductData) : String :=
  let winner := winnerOf product1 product2
  let base := "가성비 점수 " ++ formatQ1 winner.value_score ++ "점으로 우수함"
  if winner = product1 then
    let extra1 :=
      if pyTruthyZ product1.price_info.final_price && pyTruthyZ product2.price_info.final_price
          && product1.price_info.final_price.getD 0 < product2.price_info.final_price.getD 0 then
        ", 가격 경쟁력 있음"
      else ""
    let extra2 :=
      if pyTruthyQ product1.rating_info.musinsa_rating && pyTruthyQ product2.rating_info.musinsa_rating
          && product2.rating_info.musinsa_rating.getD 0 < product1.rating_info.musinsa_rating.getD 0 then
        ", 높은 평점"
      else ""
    base ++ extra1 ++ extra2
  else
    let extra1 :=
      if pyTruthyZ product2.price_info.final_price && pyTruthyZ product1.price_info.final_price
          && product2.price_info.final_price.getD 0 < product1.price_info.final_price.getD 0 then
        ", 가격 경쟁력 있음"
      else ""
    let extra2 :=
      if pyTruthyQ product2.rating_info.musinsa_rating && pyTruthyQ product1.rating_info.musinsa_rating
          && product1.rating_info.musinsa_rating.getD 0 < product2.rating_info.musinsa_rating.getD 0 then
        ", 높은 평점"
      else ""
    base ++ extra1 ++ extra2

/-- The final-recommendation cell of the comparison table (line 624):
`f"**최종 추천:** {winner['name']} - {winner_reason}"`. -/
def finalRecommendationCell (product1 product2 : ProductData) : String :=
  "**최종 추천:** " ++ (winnerOf product1 product2).name ++ " - " ++ winnerReason product1 product2

/-! `search_product_info` (lines 50–131).  The Tavily client is modelled as a
pure oracle `search : String → List RawResult`; a query whose HTTP call raised
(or returned no `"results"`) is a query with `search q = []`, which the source
skips just the same. -/

def musinsaQueries (product_name : String) : List String :=
  [product_name ++ " 무신사 최저가", product_name ++ " 무신사 가격",
   product_name ++ " 무신사 할인", product_name ++ " 무신사 평점",
   product_name ++ " 무신사 리뷰", product_name ++ " 무신사 스펙",
   product_name ++ " site:musinsa.com"]

def generalQueries (product_name : String) : List String :=
  [product_name ++ " Musinsa lowest price", product_name ++ " online rating comparison",
   product_name ++ " 할인 가격"]

structure SearchData where
  product_name : String
  results : List RawResult
deriving DecidableEq

/-- Lines 79–131: collect Musinsa-classified results and general results in
discovery order, append fallback general-query results (excluding Musinsa ones)
when fewer than 3 Musinsa results were found, and return the Musinsa bucket
concatenated before the general bucket. -/
def search_product_info (search : String → List RawResult) (product_name : String) :
    SearchData :=
  let stream := (musinsaQueries product_name).flatMap search
  let buckets := stream.foldl
    (fun (acc : List RawResult × List RawResult) r =>
      if isMusinsaResult r then (acc.1 ++ [r], acc.2) else (acc.1, acc.2 ++ [r]))
    ([], [])
  let general :=
    if buckets.1.length < 3 then
      buckets.2 ++ ((generalQueries product_name).flatMap search).filter fun r =>
        !isMusinsaResult r
    else buckets.2
  { product_name := product_name, results := buckets.1 ++ general }

/-- The preferred-marketplace bucket: Musinsa-classified results of the Musinsa
queries, in discovery order. -/
def musinsaBucket (search : String → List RawResult) (product_name : String) :
    List RawResult :=
  ((musinsaQueries product_name).flatMap search).filter isMusinsaResult

/-- The general bucket: non-Musinsa results of the Musinsa queries, followed
(when fewer than 3 preferred results were found) by the non-Musinsa results of
the fallback queries, in discovery order. -/
def generalBucket (search : String → List RawResult) (product_name : String) :
    List RawResult :=
  ((musinsaQueries product_name).flatMap search).filter (fun r => !isMusinsaResult r)
    ++ (if (musinsaBucket search product_name).length < 3 then
          ((generalQueries product_name).flatMap search).filter fun r => !isMusinsaResult r
        else [])

end PriceRating

namespace PrefRec

/-! ### `preference_based_recommendation.py` -/

/-- The `STYLE_KEYWORDS` table (lines 17–24). -/
def STYLE_KEYWORDS : List (String × List String) :=
  [("미니멀", ["미니멀", "미니멀리즘", "심플", "깔끔", "모노톤"]),
   ("스트릿", ["스트릿", "캐주얼", "힙", "유니크"]),
   ("캠퍼스", ["캠퍼스", "학생", "편안", "컴포트"]),
   ("오피스", ["오피스", "비즈니스", "정장", "포멀"]),
   ("빈티지", ["빈티지", "레트로", "옛날"]),
   ("러블리", ["러블리", "큐트", "여성스러운"])]

/-- `self.STYLE_KEYWORDS.get(style, [])`. -/
def styleKeywordsFor (style : String) : List String :=
  ((STYLE_KEYWORDS.find? fun p => p.1 == style).map Prod.snd).getD []

/-- The parsed preference record (lines 63–70). -/
structure Preferences where
  style : List String
  budget : Option String
  budget_min : Option Int
  budget_max : Option Int
  brand : List String
  keywords : List String
deriving DecidableEq

structure PrefPriceInfo where
  price : Option Int
  original_price : Option Int
  discount_rate : Option Int
deriving DecidableEq

/-- The two discount patterns of `_extract_price` (lines 332–335):
`(\d+)%\s*할인` and `(\d+)%\s*OFF`, matched case-sensitively. -/
def patPrefDisc1 : Matcher := fun s =>
  match takeDigits1 s with
  | none => none
  | some (cap, r) =>
    match eatChar '%' r with
    | none => none
    | some r2 =>
      match eatLit "할인".toList (dropSpaces r2) with
      | none => none
      | some rest => some (cap, rest)

def patPrefDisc2 : Matcher := fun s =>
  match takeDigits1 s with
  | none => none
  | some (cap, r) =>
    match eatChar '%' r with
    | none => none
    | some r2 =>
      match eatLit "OFF".toList (dropSpaces r2) with
      | none => none
      | some rest => some (cap, rest)

/-- Lines 337–343: each pattern with matches overwrites `discount_rate` with
its first match (the loop has no `break`). -/
def prefDiscountOf (t : List Char) : Option Int :=
  [patPrefDisc1, patPrefDisc2].foldl
    (fun acc m =>
      match findAll m t with
      | [] => acc
      | cap :: _ =>
        match parseIntOpt cap with
        | some d => some d
        | none => acc)
    none

/-- `_extract_price` (lines 303–345).  The two price patterns are the same
shapes as the bare `price_patterns` of `price_rating_comparison.py`
(`PriceRating.patBare1`/`patBare2`); the plausibility range here is
`[10000, 10000000]` and the minimum match is taken. -/
def _extract_price (t : List Char) : PrefPriceInfo :=
  let prices := [PriceRating.patBare1, PriceRating.patBare2].flatMap fun m =>
    (findAll m t).filterMap fun cap =>
      match parseIntOpt (stripCommaDot cap) with
      | some p => if 10000 ≤ p ∧ p ≤ 10000000 then some p else none
      | none => none
  { price := listMin? prices
    original_price := none
    discount_rate := prefDiscountOf t }

/-- Line 350: `(product_name + " " + content).lower()`. -/
def relevanceCombined (product_name content : String) : List Char :=
  lowerStr (product_name.toList ++ ' ' :: content.toList)

/-- Lines 352–354: flat `+25` for a Musinsa mention. -/
def musinsaBonus (combined : List Char) : Nat :=
  if strHasSub combined "musinsa".toList || strHasSub combined "무신사".toList then 25 else 0

/-- Lines 356–361: `+2` per style keyword occurring in the text. -/
def styleScoreOf (combined : List Char) (styles : List String) : Nat :=
  2 * (styles.flatMap styleKeywordsFor).countP fun kw => strHasSub combined kw.toList

/-- Lines 365–369: `+5` per preferred brand occurring in the text. -/
def brandScoreOf (combined : List Char) (brands : List String) : Nat :=
  5 * brands.countP fun brand => strHasSub combined (lowerStr brand.toList)

/-- Lines 373–379: `+20` inside `[budget_min, budget_max]`, `+10` inside
`[0.8*budget_min, 1.2*budget_max]`, guarded by Python truthiness of the price
and both bounds. -/
def budgetPointsOf (price bmin bmax : Option Int) : Nat :=
  if pyTruthyZ price && pyTruthyZ bmin && pyTruthyZ bmax then
    let p := price.getD 0
    let mn := bmin.getD 0
    let mx := bmax.getD 0
    if mn ≤ p ∧ p ≤ mx then 20
    else if (mn : Rat) * (4 / 5) ≤ (p : Rat) ∧ (p : Rat) ≤ (mx : Rat) * (6 / 5) then 10
    else 0
  else 0

/-- Lines 382–385: `+3` per free keyword occurring in the text. -/
def keywordScoreOf (combined : List Char) (keywords : List String) : Nat :=
  3 * keywords.countP fun kw => strHasSub combined (lowerStr kw.toList)

/-- `_calculate_relevance_score` (lines 347–389). -/
def _calculate_relevance_score (product_name content : String) (preferences : Preferences) :
    Rat :=
  let combined := relevanceCombined product_name content
  (musinsaBonus combined : Rat)
  + (min (styleScoreOf combined preferences.style) 10 : Nat)
  + (min (brandScoreOf combined preferences.brand) 15 : Nat)
  + (budgetPointsOf (_extract_price combined).price preferences.budget_min preferences.budget_max : Nat)
  + (min (keywordScoreOf combined preferences.keywords) 10 : Nat)

/-- One extracted product record (lines 290–299). -/
structure Product where
  name : String
  price : Option Int
  original_price : Option Int
  discount_rate : Option Int
  image_url : Option String
  url : String
  content : String
  relevance_score : Rat
deriving DecidableEq

/-- Python `str.strip()`. -/
def stripWs (s : List Char) : List Char :=
  ((s.dropWhile isPySpace).reverse.dropWhile isPySpace).reverse

/-- `_extract_product_info` (lines 250–301). -/
def _extract_product_info (search_result : PriceRating.RawResult) (preferences : Preferences) :
    Option Product :=
  let content := search_result.content
  let title := search_result.title
  let url := search_result.url
  if content = "" && title = "" then none
  else
    let pname :=
      if title = "" || 100 < title.toList.length then
        match ((content.toList.splitOn '\n').take 5).find?
            (fun line => 10 < line.length && line.length < 80) with
        | some line => String.mk (stripWs line)
        | none => title
      else title
    if pname = "" then none
    else
      let price_info := _extract_price (content.toList ++ ' ' :: title.toList)
      let image_url : Option String :=
        if url ≠ "" then
          match search_result.raw_image_url with
          | some u => if u ≠ "" then some u else some url
          | none => some url
        else none
      some
        { name := String.mk (pname.toList.take 100)
          price := price_info.price
          original_price := price_info.original_price
          discount_rate := price_info.discount_rate
          image_url := image_url
          url := url
          content := String.mk (content.toList.take 500)
          relevance_score := _calculate_relevance_score pname content preferences }

/-- The Musinsa-first classification of lines 191–200: checks the result's url
and content and additionally the extracted product name. -/
def classifySimilar (r : PriceRating.RawResult) (p : Product) : Bool :=
  strHasSub (lowerStr r.url.toList) "musinsa".toList
  || strHasSub (lowerStr r.content.toList) "무신사".toList
  || strHasSub (lowerStr r.content.toList) "musinsa".toList
  || strHasSub (lowerStr p.name.toList) "무신사".toList

/-- The exclusion test of the fallback loop (lines 218–225). -/
def isGeneralOnly (r : PriceRating.RawResult) : Bool :=
  !(strHasSub (lowerStr r.url.toList) "musinsa".toList
    || strHasSub (lowerStr r.content.toList) "무신사".toList
    || strHasSub (lowerStr r.content.toList) "musinsa".toList)

/-- The Musinsa-first query list (lines 135–167). -/
def musinsaQueriesP (preferences : Preferences) : List String :=
  let styleQ := preferences.style.flatMap fun style =>
    [style ++ " 스타일 무신사 인기 제품", style ++ " 무신사 추천 제품",
     style ++ " 무신사 제품", style ++ " site:musinsa.com"]
  let brandQ := preferences.brand.flatMap fun brand =>
    [brand ++ " 무신사 가성비 제품", brand ++ " 무신사 비슷한 제품", brand ++ " 무신사 추천"]
  let kwQ := (preferences.keywords.take 3).flatMap fun kw =>
    [kw ++ " 무신사 제품", kw ++ " site:musinsa.com"]
  let budgetQ := match preferences.budget with
    | some b => if b ≠ "" then [b ++ " 무신사 추천 제품", b ++ " 무신사 인기 제품"] else []
    | none => []
  let qs := styleQ ++ brandQ ++ kwQ ++ budgetQ
  if qs = [] then ["무신사 인기 제품", "site:musinsa.com 인기"] else qs

/-- The fallback general query list (lines 170–173). -/
def generalQueriesP (preferences : Preferences) : List String :=
  preferences.style.map fun style => style ++ " 스타일 인기 제품"

/-- Lines 175–228: `musinsa_products` and `general_products` before the
deduplication step. -/
def similarBuckets (search : String → List PriceRating.RawResult)
    (preferences : Preferences) : List Product × List Product :=
  let stream := ((musinsaQueriesP preferences).take 8).flatMap search
  let buckets := stream.foldl
    (fun (acc : List Product × List Product) r =>
      match _extract_product_info r preferences with
      | none => acc
      | some p =>
        if classifySimilar r p then (acc.1 ++ [p], acc.2) else (acc.1, acc.2 ++ [p]))
    ([], [])
  let general :=
    if buckets.1.length < 3 then
      buckets.2 ++ (((generalQueriesP preferences).take 3).flatMap search).filterMap
        (fun r =>
          match _extract_product_info r preferences with
          | none => none
          | some p => if isGeneralOnly r then some p else none)
    else buckets.2
  (buckets.1, general)

/-- Lines 230–246: keep the first product for each nonempty name, threading the
`seen_names` set. -/
def dedupSeen : List String → List Product → List Product × List String
  | seen, [] => ([], seen)
  | seen, p :: rest =>
    if p.name ≠ "" && !(seen.contains p.name) then
      let d := dedupSeen (p.name :: seen) rest
      (p :: d.1, d.2)
    else dedupSeen seen rest

/-- `search_similar_products` (lines 124–248), over a pure search oracle. -/
def search_similar_products (search : String → List PriceRating.RawResult)
    (preferences : Preferences) : List Product :=
  let b := similarBuckets search preferences
  let d1 := dedupSeen [] b.1
  let d2 := dedupSeen d1.2 b.2
  d1.1 ++ d2.1

/-- Stable insertion producing the order of Python's stable
`sorted(..., key=..., reverse=True)`: an element is placed before the first
element whose key is not larger, so earlier elements precede equal keys. -/
def insertScoreDesc {α : Type} (key : α → Rat) (a : α) : List α → List α
  | [] => [a]
  | b :: t => if key b ≤ key a then a :: b :: t else b :: insertScoreDesc key a t

/-- Python `sorted(l, key=key, reverse=True)` (stable descending sort). -/
def sortByScoreDesc {α : Type} (key : α → Rat) (l : List α) : List α :=
  l.foldr (insertScoreDesc key) []

/-- Lines 407–417: keep a product whose price is truthy only when it lies in
`[0.7*budget_min, 1.3*budget_max]`; products without a price are kept. -/
def passesBudgetFilter (preferences : Preferences) (p : Product) : Bool :=
  if pyTruthyZ p.price then
    decide ((preferences.budget_min.getD 0 : Rat) * (7 / 10) ≤ (p.price.getD 0 : Rat)
      ∧ (p.price.getD 0 : Rat) ≤ (preferences.budget_max.getD 0 : Rat) * (13 / 10))
  else true

/-- The list `select_top_products` truncates: sorted by score, budget-filtered
when both bounds are truthy, with the filter ignored when it empties the list
(lines 403–421). -/
def effectiveProducts (products : List Product) (preferences : Preferences) : List Product :=
  let sorted := sortByScoreDesc (fun p => p.relevance_score) products
  if pyTruthyZ preferences.budget_min && pyTruthyZ preferences.budget_max then
    let filtered := sorted.filter (passesBudgetFilter preferences)
    if filtered ≠ [] then filtered else sorted
  else sorted

/-- `select_top_products` (lines 391–422). -/
def select_top_products (products : List Product) (preferences : Preferences)
    (top_n : Nat) : List Product :=
  (effectiveProducts products preferences).take top_n

/-- The selection pipeline on index-tagged products, used to state that ties
keep their original (discovery) order. -/
def effectiveProductsIdx (products : List (Nat × Product)) (preferences : Preferences) :
    List (Nat × Product) :=
  let sorted := sortByScoreDesc (fun p => p.2.relevance_score) products
  if pyTruthyZ preferences.budget_min && pyTruthyZ preferences.budget_max then
    let filtered := sorted.filter fun p => passesBudgetFilter preferences p.2
    if filtered ≠ [] then filtered else sorted
  else sorted

def selectTopIdx (products : List (Nat × Product)) (preferences : Preferences)
    (top_n : Nat) : List (Nat × Product) :=
  (effectiveProductsIdx products preferences).take top_n

end PrefRec

end Musinsa

/-! ## Theorems -/

open Musinsa Musinsa.PriceRating Musinsa.PrefRec

set_option maxRecDepth 1000000 in
/-- Claim C1: for a search-results list containing a single result whose content
is the text "판매가격: 10,000원, 정가 20,000원", `extract_price_info` returns a
`PriceInfo` with `current_price = 10000`, `original_price = 20000` and
`discount_rate = 50`. -/
theorem C1_concrete_price_extraction :
    (extract_price_info [⟨"", "", "판매가격: 10,000원, 정가 20,000원", none⟩]).current_price
        = some 10000
    ∧ (extract_price_info [⟨"", "", "판매가격: 10,000원, 정가 20,000원", none⟩]).original_price
        = some 20000
    ∧ (extract_price_info [⟨"", "", "판매가격: 10,000원, 정가 20,000원", none⟩]).discount_rate
        = some 50 := by
  refine ⟨?_, ?_, ?_⟩ <;> with_unfolding_all rfl

/-- Claim C5: every rating-pattern match outside `[0, 5]` is discarded, and when
at least one in-range match exists `extract_rating_info` returns the arithmetic
mean of all in-range matches rounded to 2 decimals. -/
theorem C5_rating_mean (search_results : List RawResult) :
    (∀ r ∈ ratingsOf (combinedTextOf search_results), 0 ≤ r ∧ r ≤ 5)
    ∧ (ratingsOf (combinedTextOf search_results) ≠ [] →
        (extract_rating_info search_results).musinsa_rating =
          some (round2 ((ratingsOf (combinedTextOf search_results)).sum /
            ((ratingsOf (combinedTextOf search_results)).length : Rat)))) := by
  constructor
  · intro r hr
    simp only [ratingsOf, List.mem_flatMap, List.mem_filterMap] at hr
    obtain ⟨m, -, cap, -, hcap⟩ := hr
    cases hpf : parseFloat? cap with
    | none => rw [hpf] at hcap; simp at hcap
    | some q =>
      rw [hpf] at hcap
      by_cases hq : 0 ≤ q ∧ q ≤ 5
      · simp only [if_pos hq, Option.some.injEq] at hcap
        exact hcap ▸ hq
      · simp [if_neg hq] at hcap
  · intro hne
    simp only [extract_rating_info]
    rw [if_pos hne]

set_option maxRecDepth 1000000 in
/-- Witness for C5: the text "평점: 4.5/5 평점: 4.0/5" has the two in-range
matches 4.5 and 4.0, and the returned rating is their mean 4.25 — not 4.5 or
4.0. -/
theorem C5_rating_mean_witness :
    ratingsOf (combinedTextOf [(⟨"", "", "평점: 4.5/5 평점: 4.0/5", none⟩ : RawResult)])
        = [9/2, 4]
    ∧ (extract_rating_info [⟨"", "", "평점: 4.5/5 평점: 4.0/5", none⟩]).musinsa_rating
        = some (17/4) := by
  have hr : ratingsOf (combinedTextOf [(⟨"", "", "평점: 4.5/5 평점: 4.0/5", none⟩ : RawResult)])
      = [9/2, 4] := by with_unfolding_all rfl
  refine ⟨hr, ?_⟩
  have h := (C5_rating_mean [⟨"", "", "평점: 4.5/5 평점: 4.0/5", none⟩]).2 (by rw [hr]; simp)
  rw [h, hr]
  norm_num [round2, roundHalfEven]

/-- Claim C10: for every product name, content text and preferences record,
`_calculate_relevance_score` returns a value in the closed interval `[0, 80]`
(25 domain bonus + 10 style cap + 15 brand cap + 20 budget maximum + 10 keyword
cap). -/
theorem C10_relevance_score_bounds (product_name content : String)
    (preferences : Preferences) :
    0 ≤ _calculate_relevance_score product_name content preferences
    ∧ _calculate_relevance_score product_name content preferences ≤ 80 := by
  unfold _calculate_relevance_score
  constructor
  · positivity
  · have h1 : musinsaBonus (relevanceCombined product_name content) ≤ 25 := by
      unfold musinsaBonus; split <;> omega
    have h2 : min (styleScoreOf (relevanceCombined product_name content) preferences.style) 10
        ≤ 10 := Nat.min_le_right _ _
    have h3 : min (brandScoreOf (relevanceCombined product_name content) preferences.brand) 15
        ≤ 15 := Nat.min_le_right _ _
    have h4 : budgetPointsOf
        (Musinsa.PrefRec._extract_price (relevanceCombined product_name content)).price
        preferences.budget_min preferences.budget_max ≤ 20 := by
      unfold budgetPointsOf
      split
      · dsimp only
        split
        · omega
        · split <;> omega
      · omega
    have h5 : min (keywordScoreOf (relevanceCombined product_name content) preferences.keywords) 10
        ≤ 10 := Nat.min_le_right _ _
    push_cast
    have := h1; have := h2; have := h3; have := h4; have := h5
    exact_mod_cast (by push_cast; exact_mod_cast (by omega :
      (musinsaBonus (relevanceCombined product_name content)
        + min (styleScoreOf (relevanceCombined product_name content) preferences.style) 10
        + min (brandScoreOf (relevanceCombined product_name content) preferences.brand) 15
        + budgetPointsOf
            (Musinsa.PrefRec._extract_price (relevanceCombined product_name content)).price
            preferences.budget_min preferences.budget_max
        + min (keywordScoreOf (relevanceCombined product_name content) preferences.keywords) 10 : ℕ)
        ≤ 80) : ((_ : ℕ) : ℚ) ≤ ((80 : ℕ) : ℚ))

/-- Claim C6: appending one additional free keyword that occurs in the candidate
text never decreases `_calculate_relevance_score`, and the total free-keyword
contribution to the score never exceeds 10. -/
theorem C6_keyword_monotone_and_capped (product_name content : String)
    (preferences : Preferences) (kw : String)
    (hkw : strHasSub (relevanceCombined product_name content) (lowerStr kw.toList) = true) :
    _calculate_relevance_score product_name content preferences ≤
      _calculate_relevance_score product_name content
        { preferences with keywords := preferences.keywords ++ [kw] }
    ∧ ∀ p : Preferences,
        _calculate_relevance_score product_name content p
          - _calculate_relevance_score product_name content { p with keywords := [] } ≤ 10 := by
  constructor
  · unfold _calculate_relevance_score
    have hk : keywordScoreOf (relevanceCombined product_name content)
          (preferences.keywords ++ [kw])
        = keywordScoreOf (relevanceCombined product_name content) preferences.keywords + 3 := by
      unfold keywordScoreOf
      rw [List.countP_append]
      have h1 : List.countP (fun k => strHasSub (relevanceCombined product_name content)
          (lowerStr k.toList)) [kw] = 1 := by
        simp only [List.countP_cons, List.countP_nil, hkw, if_true]
      rw [h1]
      ring
    simp only
    rw [hk]
    have hmin : min (keywordScoreOf (relevanceCombined product_name content)
          preferences.keywords) 10
        ≤ min (keywordScoreOf (relevanceCombined product_name content)
          preferences.keywords + 3) 10 :=
      min_le_min (Nat.le_add_right _ _) le_rfl
    have hq : ((min (keywordScoreOf (relevanceCombined product_name content)
          preferences.keywords) 10 : ℕ) : ℚ)
        ≤ ((min (keywordScoreOf (relevanceCombined product_name content)
          preferences.keywords + 3) 10 : ℕ) : ℚ) := by exact_mod_cast hmin
    linarith
  · intro p
    unfold _calculate_relevance_score
    simp only [keywordScoreOf, List.countP_nil, Nat.mul_zero, Nat.zero_min,
      Nat.cast_zero, add_zero]
    have hcap : ((min (3 * p.keywords.countP fun k =>
          strHasSub (relevanceCombined product_name content) (lowerStr k.toList)) 10 : ℕ) : ℚ)
        ≤ 10 := by exact_mod_cast Nat.min_le_right _ 10
    linarith

/-- Witness for C6: a concrete candidate text containing the appended keyword
"코트". -/
theorem C6_keyword_monotone_witness :
    _calculate_relevance_score "무신사 코트" "심플한 미니멀 코트"
        ⟨[], none, none, none, [], ["심플"]⟩ ≤
      _calculate_relevance_score "무신사 코트" "심플한 미니멀 코트"
        ⟨[], none, none, none, [], ["심플"] ++ ["코트"]⟩
    ∧ ∀ p : Preferences,
        _calculate_relevance_score "무신사 코트" "심플한 미니멀 코트" p
          - _calculate_relevance_score "무신사 코트" "심플한 미니멀 코트"
              { p with keywords := [] } ≤ 10 :=
  C6_keyword_monotone_and_capped "무신사 코트" "심플한 미니멀 코트"
    ⟨[], none, none, none, [], ["심플"]⟩ "코트" (by decide)

/-- Claim C9 (amended): the value score equals
`round(price_component + rating_component + discount_bonus, 2)` — the source
rounds the accumulated sum to 2 decimals — with the price component defaulting
to 25 when the price is unknown and the rating component defaulting to 25 when
the rating is unknown, and the final-recommendation cell of the report names
the product with the strictly higher value score. -/
theorem C9_value_score_and_winner (p : PriceInfo) (r : RatingInfo)
    (d1 d2 : ProductData) :
    calculate_value_score p r
        = round2 (priceComponent p + ratingComponent r + discountBonus p)
    ∧ (p.final_price = none → priceComponent p = 25)
    ∧ (r.musinsa_rating = none → ratingComponent r = 25)
    ∧ (d2.value_score < d1.value_score →
        winnerOf d1 d2 = d1
        ∧ finalRecommendationCell d1 d2
            = "**최종 추천:** " ++ d1.name ++ " - " ++ winnerReason d1 d2)
    ∧ (d1.value_score < d2.value_score →
        winnerOf d1 d2 = d2
        ∧ finalRecommendationCell d1 d2
            = "**최종 추천:** " ++ d2.name ++ " - " ++ winnerReason d1 d2) := by
  refine ⟨rfl, ?_, ?_, ?_, ?_⟩
  · intro h; simp [priceComponent, h, pyTruthyZ]
  · intro h; simp [ratingComponent, h, pyTruthyQ]
  · intro h
    have hw : winnerOf d1 d2 = d1 := by unfold winnerOf; rw [if_pos h]
    exact ⟨hw, by unfold finalRecommendationCell; rw [hw]⟩
  · intro h
    have hw : winnerOf d1 d2 = d2 := by
      unfold winnerOf; rw [if_neg (not_lt.mpr (le_of_lt h))]
    exact ⟨hw, by unfold finalRecommendationCell; rw [hw]⟩

/-- Counterexample for C9 as stated: with `final_price = 5555` (reachable from
the text "판매가격: 5,555원") the value score is `round(74.72225, 2) = 74.72`,
not the exact component sum `74.72225`. -/
theorem C9_counterexample :
    calculate_value_score ⟨none, none, none, none, some 5555⟩ ⟨none, none, none⟩
      ≠ priceComponent ⟨none, none, none, none, some 5555⟩
        + ratingComponent ⟨none, none, none⟩
        + discountBonus ⟨none, none, none, none, some 5555⟩ := by
  have h1 : calculate_value_score ⟨none, none, none, none, some 5555⟩ ⟨none, none, none⟩
      = 1868 / 25 := by with_unfolding_all rfl
  have h2 : priceComponent ⟨none, none, none, none, some 5555⟩
      + ratingComponent ⟨none, none, none⟩
      + discountBonus ⟨none, none, none, none, some 5555⟩ = 298889 / 4000 := by
    with_unfolding_all rfl
  rw [h1, h2]
  norm_num

/-- Witness for C9: two concretely scored products; the recommendation names
the higher-scored one. -/
theorem C9_value_score_and_winner_witness :
    ((⟨"B", ⟨none, none, none, none, none⟩, ⟨none, none, none⟩, "", 80⟩ : ProductData).value_score
      < (⟨"A", ⟨none, none, none, none, none⟩, ⟨none, none, none⟩, "", 90⟩ : ProductData).value_score)
    ∧ winnerOf ⟨"A", ⟨none, none, none, none, none⟩, ⟨none, none, none⟩, "", 90⟩
        ⟨"B", ⟨none, none, none, none, none⟩, ⟨none, none, none⟩, "", 80⟩
      = ⟨"A", ⟨none, none, none, none, none⟩, ⟨none, none, none⟩, "", 90⟩
    ∧ finalRecommendationCell
        ⟨"A", ⟨none, none, none, none, none⟩, ⟨none, none, none⟩, "", 90⟩
        ⟨"B", ⟨none, none, none, none, none⟩, ⟨none, none, none⟩, "", 80⟩
      = "**최종 추천:** " ++ "A" ++ " - "
        ++ winnerReason ⟨"A", ⟨none, none, none, none, none⟩, ⟨none, none, none⟩, "", 90⟩
          ⟨"B", ⟨none, none, none, none, none⟩, ⟨none, none, none⟩, "", 80⟩ := by
  have hlt : ((⟨"B", ⟨none, none, none, none, none⟩, ⟨none, none, none⟩, "", 80⟩ :
        ProductData).value_score
      < (⟨"A", ⟨none, none, none, none, none⟩, ⟨none, none, none⟩, "", 90⟩ :
        ProductData).value_score) := by show (80 : ℚ) < 90; norm_num
  have h := (C9_value_score_and_winner ⟨none, none, none, none, none⟩ ⟨none, none, none⟩
    ⟨"A", ⟨none, none, none, none, none⟩, ⟨none, none, none⟩, "", 90⟩
    ⟨"B", ⟨none, none, none, none, none⟩, ⟨none, none, none⟩, "", 80⟩).2.2.2.1 hlt
  exact ⟨hlt, h.1, h.2⟩

/-! ### Lemmas about the stable descending sort of `select_top_products` -/

theorem mem_insertScoreDesc {α : Type} (key : α → Rat) (a x : α) (l : List α) :
    x ∈ insertScoreDesc key a l ↔ x = a ∨ x ∈ l := by
  induction l with
  | nil => simp [insertScoreDesc]
  | cons b t ih =>
    unfold insertScoreDesc
    split
    · simp [List.mem_cons]
    · simp only [List.mem_cons, ih]
      tauto

theorem pairwise_insertScoreDesc {α : Type} (key : α → Rat) (a : α) (l : List α)
    (h : l.Pairwise fun x y => key y ≤ key x) :
    (insertScoreDesc key a l).Pairwise fun x y => key y ≤ key x := by
  induction l with
  | nil => simp [insertScoreDesc]
  | cons b t ih =>
    rw [List.pairwise_cons] at h
    obtain ⟨hb, ht⟩ := h
    unfold insertScoreDesc
    split
    · rename_i hba
      refine List.Pairwise.cons ?_ (List.Pairwise.cons hb ht)
      intro y hy
      rcases List.mem_cons.mp hy with rfl | hyt
      · exact hba
      · exact le_trans (hb y hyt) hba
    · rename_i hba
      refine List.Pairwise.cons ?_ (ih ht)
      intro y hy
      rcases (mem_insertScoreDesc key a y t).mp hy with rfl | hyt
      · exact le_of_lt (lt_of_not_le hba)
      · exact hb y hyt

theorem mem_sortByScoreDesc {α : Type} (key : α → Rat) (x : α) (l : List α) :
    x ∈ sortByScoreDesc key l ↔ x ∈ l := by
  induction l with
  | nil => simp [sortByScoreDesc]
  | cons a t ih =>
    show x ∈ insertScoreDesc key a (sortByScoreDesc key t) ↔ _
    rw [mem_insertScoreDesc]
    simp [ih]

theorem sortByScoreDesc_pairwise {α : Type} (key : α → Rat) (l : List α) :
    (sortByScoreDesc key l).Pairwise fun x y => key y ≤ key x := by
  induction l with
  | nil => simp [sortByScoreDesc]
  | cons a t ih => exact pairwise_insertScoreDesc key a _ ih

theorem stable_insertScoreDesc {α : Type} (key : α → Rat) (idx : α → Nat) (a : α)
    (l : List α)
    (hstab : l.Pairwise fun x y => key x = key y → idx x < idx y)
    (hidx : ∀ b ∈ l, idx a < idx b) :
    (insertScoreDesc key a l).Pairwise fun x y => key x = key y → idx x < idx y := by
  induction l with
  | nil => simp [insertScoreDesc]
  | cons b t ih =>
    rw [List.pairwise_cons] at hstab
    obtain ⟨hb, ht⟩ := hstab
    unfold insertScoreDesc
    split
    · refine List.Pairwise.cons ?_ (List.Pairwise.cons hb ht)
      intro y hy _
      exact hidx y hy
    · rename_i hba
      refine List.Pairwise.cons ?_
        (ih ht fun c hc => hidx c (List.mem_cons_of_mem _ hc))
      intro y hy
      rcases (mem_insertScoreDesc key a y t).mp hy with rfl | hyt
      · exact fun hkey => absurd (le_of_eq hkey) hba
      · exact hb y hyt

theorem sortByScoreDesc_stable {α : Type} (key : α → Rat) (idx : α → Nat) (l : List α)
    (h : l.Pairwise fun x y => idx x < idx y) :
    (sortByScoreDesc key l).Pairwise fun x y => key x = key y → idx x < idx y := by
  induction l with
  | nil => simp [sortByScoreDesc]
  | cons a t ih =>
    rw [List.pairwise_cons] at h
    obtain ⟨ha, ht⟩ := h
    show (insertScoreDesc key a (sortByScoreDesc key t)).Pairwise _
    exact stable_insertScoreDesc key idx a _ (ih ht)
      fun b hb => ha b ((mem_sortByScoreDesc key b t).mp hb)

theorem map_snd_insertScoreDesc {α β : Type} (key : β → Rat) (a : α × β)
    (l : List (α × β)) :
    (insertScoreDesc (fun p => key p.2) a l).map Prod.snd
      = insertScoreDesc key a.2 (l.map Prod.snd) := by
  induction l with
  | nil => simp [insertScoreDesc]
  | cons b t ih =>
    unfold insertScoreDesc
    by_cases h : key b.2 ≤ key a.2
    · simp only [if_pos h, List.map_cons]
    · simp only [if_neg h, List.map_cons, ih]

theorem map_snd_sortByScoreDesc {α β : Type} (key : β → Rat) (l : List (α × β)) :
    (sortByScoreDesc (fun p => key p.2) l).map Prod.snd
      = sortByScoreDesc key (l.map Prod.snd) := by
  induction l with
  | nil => simp [sortByScoreDesc]
  | cons a t ih =>
    show (insertScoreDesc (fun p => key p.2) a (sortByScoreDesc (fun p => key p.2) t)).map
        Prod.snd = _
    rw [map_snd_insertScoreDesc, ih]
    rfl

theorem map_snd_effectiveProductsIdx (products : List Product) (prefs : Preferences) :
    (effectiveProductsIdx products.enum prefs).map Prod.snd
      = effectiveProducts products prefs := by
  unfold effectiveProductsIdx effectiveProducts
  have hsort : (sortByScoreDesc (fun p : Nat × Product => p.2.relevance_score)
        products.enum).map Prod.snd
      = sortByScoreDesc (fun p : Product => p.relevance_score) products := by
    rw [map_snd_sortByScoreDesc]
    congr 1
    exact List.enum_map_snd products
  by_cases h : (pyTruthyZ prefs.budget_min && pyTruthyZ prefs.budget_max) = true
  · simp only [if_pos h]
    have hfil : ((sortByScoreDesc (fun p : Nat × Product => p.2.relevance_score)
          products.enum).filter fun p => passesBudgetFilter prefs p.2).map Prod.snd
        = ((sortByScoreDesc (fun p : Product => p.relevance_score) products).filter
            (passesBudgetFilter prefs)) := by
      rw [← hsort, List.filter_map]
      rfl
    by_cases hne : ((sortByScoreDesc (fun p : Nat × Product => p.2.relevance_score)
        products.enum).filter fun p => passesBudgetFilter prefs p.2) = []
    · rw [if_neg (by simp [hne]), if_neg (by rw [← hfil, hne]; simp)]
      exact hsort
    · rw [if_pos hne, if_pos (by rw [← hfil]; simpa using hne)]
      exact hfil
  · simp only [if_neg h]
    exact hsort

theorem enum_pairwise_fst_lt {α : Type} (l : List α) :
    l.enum.Pairwise fun a b => a.1 < b.1 := by
  have h := List.pairwise_lt_range l.length
  rw [← List.enum_map_fst l, List.pairwise_map] at h
  exact h

/-- Claim C7 (amended): `select_top_products` returns exactly
`min(top_n, m)` items where `m` counts the candidates surviving the budget
filter (all candidates when no budget is set or when the filter would empty the
list), ordered by non-increasing `relevance_score` with ties kept in original
order; on 5 candidates with strictly decreasing scores `[90,80,70,60,50]` and
`top_n = 3` it returns exactly the first three, in that order. -/
theorem C7_select_top_products (products : List Product) (prefs : Preferences)
    (top_n : Nat) :
    (select_top_products products prefs top_n).length
        = min top_n (effectiveProducts products prefs).length
    ∧ (select_top_products products prefs top_n).Pairwise
        (fun a b => b.relevance_score ≤ a.relevance_score)
    ∧ (selectTopIdx products.enum prefs top_n).map Prod.snd
        = select_top_products products prefs top_n
    ∧ (selectTopIdx products.enum prefs top_n).Pairwise
        (fun a b => a.2.relevance_score = b.2.relevance_score → a.1 < b.1)
    ∧ select_top_products
        [⟨"P1", none, none, none, none, "", "", 90⟩, ⟨"P2", none, none, none, none, "", "", 80⟩,
         ⟨"P3", none, none, none, none, "", "", 70⟩, ⟨"P4", none, none, none, none, "", "", 60⟩,
         ⟨"P5", none, none, none, none, "", "", 50⟩] ⟨[], none, none, none, [], []⟩ 3
        = [⟨"P1", none, none, none, none, "", "", 90⟩, ⟨"P2", none, none, none, none, "", "", 80⟩,
           ⟨"P3", none, none, none, none, "", "", 70⟩] := by
  have heffp : (effectiveProducts products prefs).Pairwise
      (fun a b => b.relevance_score ≤ a.relevance_score) := by
    unfold effectiveProducts
    have hs := sortByScoreDesc_pairwise (fun p : Product => p.relevance_score) products
    split
    · dsimp only
      split
      · exact hs.filter _
      · exact hs
    · exact hs
  have heffidx : (effectiveProductsIdx products.enum prefs).Pairwise
      (fun a b => a.2.relevance_score = b.2.relevance_score → a.1 < b.1) := by
    unfold effectiveProductsIdx
    have hs := sortByScoreDesc_stable (fun p : Nat × Product => p.2.relevance_score)
      Prod.fst products.enum (enum_pairwise_fst_lt products)
    split
    · dsimp only
      split
      · exact hs.filter _
      · exact hs
    · exact hs
  refine ⟨List.length_take _ _, ?_, ?_, ?_, ?_⟩
  · exact heffp.sublist (List.take_sublist _ _)
  · show ((effectiveProductsIdx products.enum prefs).take top_n).map Prod.snd = _
    rw [List.map_take, map_snd_effectiveProductsIdx]
    rfl
  · exact heffidx.sublist (List.take_sublist _ _)
  · with_unfolding_all rfl

/-- Counterexample for C7 as stated: with a budget range set, the filter can
drop candidates, so fewer than `min(top_n, available)` items are returned (here
1 item from 2 available with `top_n = 2`). -/
theorem C7_counterexample :
    (select_top_products
        [⟨"a", some 100000, none, none, none, "", "", 90⟩,
         ⟨"b", some 5000000, none, none, none, "", "", 80⟩]
        ⟨[], none, some 100000, some 190000, [], []⟩ 2).length
      ≠ min 2 ([⟨"a", some 100000, none, none, none, "", "", 90⟩,
         ⟨"b", some 5000000, none, none, none, "", "", 80⟩] : List Product).length := by
  have h : (select_top_products
        [⟨"a", some 100000, none, none, none, "", "", 90⟩,
         ⟨"b", some 5000000, none, none, none, "", "", 80⟩]
        ⟨[], none, some 100000, some 190000, [], []⟩ 2).length = 1 := by
    with_unfolding_all rfl
  rw [h]
  decide

/-! ### Lemmas for the domain-preference ranker -/

theorem foldl_partition_eq {α : Type} (p : α → Bool) (l : List α) (acc1 acc2 : List α) :
    l.foldl (fun (acc : List α × List α) r =>
        if p r then (acc.1 ++ [r], acc.2) else (acc.1, acc.2 ++ [r])) (acc1, acc2)
      = (acc1 ++ l.filter p, acc2 ++ l.filter fun r => !p r) := by
  induction l generalizing acc1 acc2 with
  | nil => simp
  | cons a t ih =>
    rw [List.foldl_cons]
    cases h : p a with
    | true =>
      simp only [h, if_true]
      rw [ih]
      simp [List.filter_cons, h]
    | false =>
      simp only [h, Bool.false_eq_true, if_false]
      rw [ih]
      simp [List.filter_cons, h]

theorem dedupSeen_fst_sublist (seen : List String) (l : List Product) :
    (dedupSeen seen l).1.Sublist l := by
  induction l generalizing seen with
  | nil => simp [dedupSeen]
  | cons p t ih =>
    unfold dedupSeen
    split
    · exact (ih _).cons₂ p
    · exact (ih seen).cons p

/-- Claim C8: the domain-preference ranker returns every preferred-marketplace
(Musinsa) result before every general result, preserving per-item discovery
order within each bucket (a stable partition): `search_product_info` returns
exactly the Musinsa bucket (a filter of the discovery stream) concatenated
before the general bucket, and `search_similar_products` returns a
dedup-sublist of its Musinsa bucket concatenated before a dedup-sublist of its
general bucket. -/
theorem C8_domain_preference_ranker (search searchP : String → List RawResult)
    (product_name : String) (prefs : Preferences) :
    (search_product_info search product_name).results
        = musinsaBucket search product_name ++ generalBucket search product_name
    ∧ ∃ m g, search_similar_products searchP prefs = m ++ g
        ∧ m.Sublist (similarBuckets searchP prefs).1
        ∧ g.Sublist (similarBuckets searchP prefs).2 := by
  constructor
  · have h := foldl_partition_eq isMusinsaResult
      ((musinsaQueries product_name).flatMap search) [] []
    unfold search_product_info generalBucket
    dsimp only
    rw [h]
    simp only [musinsaBucket, List.nil_append, List.append_assoc]
    split <;> simp
  · exact ⟨(dedupSeen [] (similarBuckets searchP prefs).1).1,
      (dedupSeen (dedupSeen [] (similarBuckets searchP prefs).1).2
        (similarBuckets searchP prefs).2).1,
      rfl, dedupSeen_fst_sublist _ _, dedupSeen_fst_sublist _ _⟩

/-! ### Emptiness of the price patterns on texts without currency numbers -/

theorem takeDigitsUpTo_append (n : Nat) (s : List Char) :
    (takeDigitsUpTo n s).1 ++ (takeDigitsUpTo n s).2 = s := by
  induction n generalizing s with
  | zero => rfl
  | succ n ih =>
    cases s with
    | nil => rfl
    | cons c r =>
      cases htd : takeDigitsUpTo n r with
      | mk ds rest =>
        by_cases h : isDigitC c
        · have := ih r
          rw [htd] at this
          simp only [takeDigitsUpTo, h, if_true, htd]
          simpa using this
        · simp [takeDigitsUpTo, h]

theorem takeDigitsUpTo_digits (n : Nat) (s : List Char) :
    ∀ c ∈ (takeDigitsUpTo n s).1, isDigitC c = true := by
  induction n generalizing s with
  | zero => intro c hc; simp [takeDigitsUpTo] at hc
  | succ n ih =>
    cases s with
    | nil => intro c hc; simp [takeDigitsUpTo] at hc
    | cons a r =>
      by_cases h : isDigitC a
      · cases htd : takeDigitsUpTo n r with
        | mk ds rest =>
          intro c hc
          simp only [takeDigitsUpTo, h, if_true, htd, List.mem_cons] at hc
          rcases hc with rfl | hc
          · exact h
          · have := ih r
            rw [htd] at this
            exact this c hc
      · intro c hc; simp [takeDigitsUpTo, h] at hc

theorem starComma3_append (s : List Char) :
    (starComma3 s).1 ++ (starComma3 s).2 = s := by
  induction s using starComma3.induct with
  | case1 a b c r h ds rest heq ih =>
    rw [heq] at ih
    simp only [starComma3, h, if_true, heq]
    simpa using ih
  | case2 a b c r h => simp [starComma3, h]
  | case3 s hne =>
    rw [starComma3.eq_def]
    split
    · exact absurd rfl (hne _ _ _ _)
    · simp

theorem starComma3_last_digit (s : List Char) :
    (starComma3 s).1 = []
    ∨ ∃ pre d, (starComma3 s).1 = pre ++ [d] ∧ isDigitC d = true := by
  induction s using starComma3.induct with
  | case1 a b c r h ds rest heq ih =>
    rw [heq] at ih
    simp only [starComma3, h, if_true, heq]
    simp only at ih
    have hc : isDigitC c = true := by
      simp only [Bool.and_eq_true] at h
      exact h.2
    rcases ih with rfl | ⟨pre, d, hpre, hd⟩
    · exact Or.inr ⟨[',', a, b], c, rfl, hc⟩
    · exact Or.inr ⟨',' :: a :: b :: c :: pre, d, by simp [hpre], hd⟩
  | case2 a b c r h => simp [starComma3, h]
  | case3 s hne =>
    rw [starComma3.eq_def]
    split
    · exact absurd rfl (hne _ _ _ _)
    · simp

theorem takeDigits1_spec (s ds rest : List Char) (h : takeDigits1 s = some (ds, rest)) :
    ds ++ rest = s ∧ ds ≠ [] ∧ ∀ c ∈ ds, isDigitC c = true := by
  unfold takeDigits1 at h
  by_cases hds : s.takeWhile isDigitC = []
  · simp [hds] at h
  · simp only [hds, if_neg, if_false] at h
    obtain ⟨rfl, rfl⟩ : s.takeWhile isDigitC = ds ∧ s.dropWhile isDigitC = rest := by
      cases h; exact ⟨rfl, rfl⟩
    exact ⟨List.takeWhile_append_dropWhile isDigitC s, hds,
      fun c hc => List.mem_takeWhile_imp hc⟩

theorem optFrac_append (s : List Char) : (optFrac s).1 ++ (optFrac s).2 = s := by
  unfold optFrac
  split
  · rename_i r
    cases htd : takeDigits1 r with
    | none => simp
    | some p =>
      cases p with
      | mk ds rest =>
        obtain ⟨hd, -, -⟩ := takeDigits1_spec r ds rest htd
        simp [hd]
  · simp

theorem optFrac_last_digit (s : List Char) :
    (optFrac s).1 = []
    ∨ ∃ pre d, (optFrac s).1 = pre ++ [d] ∧ isDigitC d = true := by
  unfold optFrac
  split
  · rename_i r
    cases htd : takeDigits1 r with
    | none => simp
    | some p =>
      cases p with
      | mk ds rest =>
        obtain ⟨-, hne, hdig⟩ := takeDigits1_spec r ds rest htd
        refine Or.inr ⟨'.' :: ds.dropLast, ds.getLast hne, ?_, hdig _ (List.getLast_mem hne)⟩
        simp [List.dropLast_append_getLast hne]
  · simp

theorem matchNUM_spec (s cap r : List Char) (h : matchNUM s = some (cap, r)) :
    cap ++ r = s
    ∧ (∃ pre d, cap = pre ++ [d] ∧ isDigitC d = true)
    ∧ (∃ d t, s = d :: t ∧ isDigitC d = true) := by
  unfold matchNUM at h
  cases htd : takeDigitsUpTo 3 s with
  | mk ds r1 =>
    rw [htd] at h
    cases hds : ds with
    | nil => rw [hds] at h; simp at h
    | cons d0 dt =>
      rw [hds] at h
      dsimp only at h
      cases hsc : starComma3 r1 with
      | mk gs r2 =>
        rw [hsc] at h
        cases hof : optFrac r2 with
        | mk fs r3 =>
          rw [hof] at h
          simp only [Option.some.injEq, Prod.mk.injEq] at h
          obtain ⟨hcap, hr⟩ := h
          have happ1 := takeDigitsUpTo_append 3 s
          rw [htd, hds] at happ1
          have happ2 := starComma3_append r1
          rw [hsc] at happ2
          have happ3 := optFrac_append r2
          rw [hof] at happ3
          have hdig := takeDigitsUpTo_digits 3 s
          rw [htd, hds] at hdig
          refine ⟨?_, ?_, ?_⟩
          · rw [← hcap, ← hr]
            simp only [List.append_assoc] at happ1 happ2 happ3 ⊢
            rw [happ3, happ2]
            simpa using happ1
          · have hgs := starComma3_last_digit r1
            rw [hsc] at hgs
            have hfs := optFrac_last_digit r2
            rw [hof] at hfs
            simp only at hgs hfs
            rcases hfs with rfl | ⟨pre, d, hpre, hd⟩
            · rcases hgs with rfl | ⟨pre, d, hpre, hd⟩
              · refine ⟨(d0 :: dt).dropLast, (d0 :: dt).getLast (by simp), ?_, ?_⟩
                · rw [← hcap]
                  simp [List.dropLast_append_getLast]
                · exact hdig _ (List.getLast_mem (by simp))
              · exact ⟨d0 :: dt ++ pre, d, by rw [← hcap, hpre]; simp, hd⟩
            · exact ⟨(d0 :: dt) ++ gs ++ pre, d, by rw [← hcap, hpre]; simp, hd⟩
          · refine ⟨d0, dt ++ r1, ?_, hdig d0 (by simp)⟩
            rw [← happ1]
            simp

theorem hasNumCurrency_of_split (pre : List Char) (c : Char) (rest : List Char)
    (h : numCurrencyAt c rest = true) :
    hasNumCurrency (pre ++ c :: rest) = true := by
  induction pre with
  | nil => simp [hasNumCurrency, h]
  | cons x t ih => simp [hasNumCurrency, ih]

theorem hasNumCurrency_suffix (t s : List Char) (hsuf : t <:+ s)
    (h : hasNumCurrency t = true) : hasNumCurrency s = true := by
  obtain ⟨pre, rfl⟩ := hsuf
  induction pre with
  | nil => simpa using h
  | cons x xs ih => simp [hasNumCurrency, ih]

theorem eatChar_eq (c : Char) (s r : List Char) (h : eatChar c s = some r) :
    s = c :: r := by
  cases s with
  | nil => simp [eatChar] at h
  | cons x t =>
    unfold eatChar at h
    dsimp only at h
    by_cases hx : x = c
    · rw [if_pos hx] at h
      cases h
      rw [hx]
    · rw [if_neg hx] at h
      cases h

theorem eatLit_eq (lit s r : List Char) (h : eatLit lit s = some r) :
    s = lit ++ r := by
  unfold eatLit at h
  by_cases hp : lit.isPrefixOf s
  · rw [if_pos hp] at h
    cases h
    rw [List.isPrefixOf_iff_prefix] at hp
    obtain ⟨t, rfl⟩ := hp
    rw [List.drop_left]
  · rw [if_neg hp] at h
    cases h

theorem eatAlt_suffix (alts : List (List Char)) (s r : List Char)
    (h : eatAlt alts s = some r) : r <:+ s := by
  induction alts with
  | nil => simp [eatAlt] at h
  | cons lit rest ih =>
    unfold eatAlt at h
    cases hl : eatLit lit s with
    | some r2 =>
      rw [hl] at h
      cases h
      exact ⟨lit, (eatLit_eq lit s r hl).symm⟩
    | none =>
      rw [hl] at h
      exact ih h

theorem eatLitIC_suffix (lit s r : List Char) (h : eatLitIC lit s = some r) :
    r <:+ s := by
  unfold eatLitIC at h
  split at h
  · cases h
    exact List.drop_suffix _ _
  · cases h

theorem eatAltIC_suffix (alts : List (List Char)) (s r : List Char)
    (h : eatAltIC alts s = some r) : r <:+ s := by
  induction alts with
  | nil => simp [eatAltIC] at h
  | cons lit rest ih =>
    unfold eatAltIC at h
    cases hl : eatLitIC lit s with
    | some r2 =>
      rw [hl] at h
      cases h
      exact eatLitIC_suffix lit s r hl
    | none =>
      rw [hl] at h
      exact ih h

theorem dropSpaces_suffix (s : List Char) : dropSpaces s <:+ s :=
  List.dropWhile_suffix isPySpace

theorem eatOptColon_suffix (s : List Char) : eatOptColon s <:+ s := by
  unfold eatOptColon
  split
  · exact List.suffix_cons _ _
  · exact List.suffix_rfl

theorem eatSep_suffix (s : List Char) : eatSep s <:+ s :=
  ((dropSpaces_suffix _).trans (eatOptColon_suffix _)).trans (dropSpaces_suffix s)

/-- The core shape shared by all won-denominated price patterns: a successful
`NUM` match followed by `\s*` and a literal `원` yields a number-plus-currency
occurrence. -/
theorem hasNum_of_NUM_won (s0 cap r2 rest : List Char)
    (hnum : matchNUM s0 = some (cap, r2))
    (hwon : eatChar '원' (dropSpaces r2) = some rest) :
    hasNumCurrency s0 = true := by
  obtain ⟨happ, ⟨pre, d, hcap, hd⟩, -⟩ := matchNUM_spec s0 cap r2 hnum
  have hs0 : s0 = pre ++ d :: r2 := by
    rw [← happ, hcap]
    simp
  have hhead : (dropSpaces r2).head? = some '원' := by
    rw [eatChar_eq '원' (dropSpaces r2) rest hwon]
    rfl
  have hat : numCurrencyAt d r2 = true := by
    unfold numCurrencyAt
    rw [hd, hhead]
    simp
  rw [hs0]
  exact hasNumCurrency_of_split pre d r2 hat

/-- The core shape of the `₩`-prefixed patterns. -/
theorem hasNum_of_won_NUM (s s1 cap r : List Char)
    (hwon : eatChar '₩' s = some s1)
    (hnum : matchNUM (dropSpaces s1) = some (cap, r)) :
    hasNumCurrency s = true := by
  obtain ⟨-, -, d, t, hdt, hd⟩ := matchNUM_spec _ cap r hnum
  have hat : numCurrencyAt '₩' s1 = true := by
    unfold numCurrencyAt
    have : (dropSpaces s1).head? = some d := by rw [hdt]; rfl
    rw [this]
    simp [hd]
  rw [eatChar_eq '₩' s s1 hwon]
  exact hasNumCurrency_of_split [] '₩' s1 hat

theorem patPrice1_hasNum (s cap r : List Char) (h : patPrice1 s = some (cap, r)) :
    hasNumCurrency s = true := by
  unfold patPrice1 at h
  cases h1 : eatAlt ["가격".toList, "판매가격".toList, "판매가".toList, "현재가격".toList,
      "현재가".toList, "최저가".toList, "할인가격".toList, "할인가".toList,
      "최종가격".toList, "최종가".toList] s with
  | none => rw [h1] at h; cases h
  | some s1 =>
    rw [h1] at h
    dsimp only at h
    cases h2 : matchNUM (eatSep s1) with
    | none => rw [h2] at h; cases h
    | some p =>
      rw [h2] at h
      cases p with
      | mk cap2 r2 =>
        dsimp only at h
        cases h3 : eatChar '원' (dropSpaces r2) with
        | none => rw [h3] at h; cases h
        | some rest =>
          exact hasNumCurrency_suffix _ _
            ((eatSep_suffix s1).trans (eatAlt_suffix _ _ _ h1))
            (hasNum_of_NUM_won _ _ _ _ h2 h3)

theorem patPrice2_hasNum (s cap r : List Char) (h : patPrice2 s = some (cap, r)) :
    hasNumCurrency s = true := by
  unfold patPrice2 at h
  cases h2 : matchNUM s with
  | none => rw [h2] at h; cases h
  | some p =>
    rw [h2] at h
    cases p with
    | mk cap2 r2 =>
      dsimp only at h
      cases h3 : eatChar '원' (dropSpaces r2) with
      | none => rw [h3] at h; cases h
      | some rest => exact hasNum_of_NUM_won _ _ _ _ h2 h3

theorem patPrice3_hasNum (s cap r : List Char) (h : patPrice3 s = some (cap, r)) :
    hasNumCurrency s = true := by
  unfold patPrice3 at h
  cases h1 : eatLitIC "price".toList s with
  | none => rw [h1] at h; cases h
  | some s1 =>
    rw [h1] at h
    dsimp only at h
    cases h2 : matchNUM (eatSep s1) with
    | none => rw [h2] at h; cases h
    | some p =>
      rw [h2] at h
      cases p with
      | mk cap2 r2 =>
        dsimp only at h
        cases h3 : eatChar '원' (dropSpaces r2) with
        | none => rw [h3] at h; cases h
        | some rest =>
          exact hasNumCurrency_suffix _ _
            ((eatSep_suffix s1).trans (eatLitIC_suffix _ _ _ h1))
            (hasNum_of_NUM_won _ _ _ _ h2 h3)

theorem patPrice4_hasNum (s cap r : List Char) (h : patPrice4 s = some (cap, r)) :
    hasNumCurrency s = true := by
  unfold patPrice4 at h
  cases h1 : eatChar '₩' s with
  | none => rw [h1] at h; cases h
  | some s1 =>
    rw [h1] at h
    dsimp only at h
    cases h2 : matchNUM (dropSpaces s1) with
    | none => rw [h2] at h; cases h
    | some p =>
      cases p with
      | mk cap2 r2 => exact hasNum_of_won_NUM s s1 cap2 r2 h1 h2

theorem patPrice5_hasNum (s cap r : List Char) (h : patPrice5 s = some (cap, r)) :
    hasNumCurrency s = true := by
  unfold patPrice5 at h
  cases h1 : eatAlt ["원가".toList, "정가".toList, "할인전가격".toList,
      "할인 전 가격".toList] s with
  | none => rw [h1] at h; cases h
  | some s1 =>
    rw [h1] at h
    dsimp only at h
    cases h2 : matchNUM (eatSep s1) with
    | none => rw [h2] at h; cases h
    | some p =>
      rw [h2] at h
      cases p with
      | mk cap2 r2 =>
        dsimp only at h
        cases h3 : eatChar '원' (dropSpaces r2) with
        | none => rw [h3] at h; cases h
        | some rest =>
          exact hasNumCurrency_suffix _ _
            ((eatSep_suffix s1).trans (eatAlt_suffix _ _ _ h1))
            (hasNum_of_NUM_won _ _ _ _ h2 h3)

theorem patBare1_hasNum (s cap r : List Char) (h : patBare1 s = some (cap, r)) :
    hasNumCurrency s = true := by
  unfold patBare1 at h
  cases h2 : matchNUM s with
  | none => rw [h2] at h; cases h
  | some p =>
    rw [h2] at h
    cases p with
    | mk cap2 r2 =>
      dsimp only at h
      cases h3 : eatChar '원' (dropSpaces r2) with
      | none => rw [h3] at h; cases h
      | some rest => exact hasNum_of_NUM_won _ _ _ _ h2 h3

theorem patBare2_hasNum (s cap r : List Char) (h : patBare2 s = some (cap, r)) :
    hasNumCurrency s = true := by
  unfold patBare2 at h
  cases h1 : eatChar '₩' s with
  | none => rw [h1] at h; cases h
  | some s1 =>
    rw [h1] at h
    dsimp only at h
    cases h2 : matchNUM (dropSpaces s1) with
    | none => rw [h2] at h; cases h
    | some p =>
      cases p with
      | mk cap2 r2 => exact hasNum_of_won_NUM s s1 cap2 r2 h1 h2

theorem patOrig1_hasNum (s cap r : List Char) (h : patOrig1 s = some (cap, r)) :
    hasNumCurrency s = true := by
  unfold patOrig1 at h
  cases h1 : eatAlt ["원가".toList, "정가".toList, "할인전가격".toList,
      "할인 전 가격".toList, "기존가격".toList] s with
  | none => rw [h1] at h; cases h
  | some s1 =>
    rw [h1] at h
    dsimp only at h
    cases h2 : matchNUM (eatSep s1) with
    | none => rw [h2] at h; cases h
    | some p =>
      rw [h2] at h
      cases p with
      | mk cap2 r2 =>
        dsimp only at h
        cases h3 : eatChar '원' (dropSpaces r2) with
        | none => rw [h3] at h; cases h
        | some rest =>
          exact hasNumCurrency_suffix _ _
            ((eatSep_suffix s1).trans (eatAlt_suffix _ _ _ h1))
            (hasNum_of_NUM_won _ _ _ _ h2 h3)

theorem patOrig2_hasNum (s cap r : List Char) (h : patOrig2 s = some (cap, r)) :
    hasNumCurrency s = true := by
  unfold patOrig2 at h
  cases h2 : matchNUM s with
  | none => rw [h2] at h; cases h
  | some p =>
    rw [h2] at h
    cases p with
    | mk cap2 r2 =>
      dsimp only at h
      cases h3 : eatChar '원' (dropSpaces r2) with
      | none => rw [h3] at h; cases h
      | some rest => exact hasNum_of_NUM_won _ _ _ _ h2 h3

theorem findAllAux_nil (m : Matcher) (fuel : Nat) (s : List Char)
    (h : ∀ t, t <:+ s → m t = none) : findAllAux m fuel s = [] := by
  induction fuel generalizing s with
  | zero => rfl
  | succ fuel ih =>
    rw [findAllAux.eq_def]
    dsimp only
    rw [h s List.suffix_rfl]
    cases s with
    | nil => rfl
    | cons c t =>
      exact ih t fun t2 ht2 => h t2 (ht2.trans (List.suffix_cons c t))

theorem findAll_nil (m : Matcher) (s : List Char)
    (h : ∀ t, t <:+ s → m t = none) : findAll m s = [] :=
  findAllAux_nil m (s.length + 1) s h

theorem findAllPosAux_nil (m : Matcher) (fuel i : Nat) (s : List Char)
    (h : ∀ t, t <:+ s → m t = none) : findAllPosAux m fuel i s = [] := by
  induction fuel generalizing s i with
  | zero => rfl
  | succ fuel ih =>
    rw [findAllPosAux.eq_def]
    dsimp only
    rw [h s List.suffix_rfl]
    cases s with
    | nil => rfl
    | cons c t => exact ih _ t fun t2 ht2 => h t2 (ht2.trans (List.suffix_cons c t))

theorem findAllPos_nil (m : Matcher) (s : List Char)
    (h : ∀ t, t <:+ s → m t = none) : findAllPos m s = [] :=
  findAllPosAux_nil m (s.length + 1) 0 s h

/-- On a text with no number-plus-currency occurrence, a matcher whose success
would imply such an occurrence matches at no suffix. -/
theorem matcher_none_of_noNum (m : Matcher) (t : List Char)
    (hm : ∀ s cap r, m s = some (cap, r) → hasNumCurrency s = true)
    (h : hasNumCurrency t = false) :
    ∀ s, s <:+ t → m s = none := by
  intro s hs
  cases hms : m s with
  | none => rfl
  | some p =>
    cases p with
    | mk cap r =>
      have := hasNumCurrency_suffix s t hs (hm s cap r hms)
      rw [h] at this
      cases this

theorem contextPricesOf_nil (t : List Char) (h : hasNumCurrency t = false) :
    contextPricesOf t = [] := by
  unfold contextPricesOf priceKeywordPatterns
  simp only [List.flatMap_cons, List.flatMap_nil,
    findAll_nil _ _ (matcher_none_of_noNum _ t patPrice1_hasNum h),
    findAll_nil _ _ (matcher_none_of_noNum _ t patPrice2_hasNum h),
    findAll_nil _ _ (matcher_none_of_noNum _ t patPrice3_hasNum h),
    findAll_nil _ _ (matcher_none_of_noNum _ t patPrice4_hasNum h),
    findAll_nil _ _ (matcher_none_of_noNum _ t patPrice5_hasNum h),
    List.filterMap_nil, List.append_nil]

theorem candidatesOf_nil (t : List Char) (h : hasNumCurrency t = false) :
    candidatesOf t = [] := by
  unfold candidatesOf
  simp only [List.flatMap_cons, List.flatMap_nil,
    findAllPos_nil _ _ (matcher_none_of_noNum _ t patBare1_hasNum h),
    findAllPos_nil _ _ (matcher_none_of_noNum _ t patBare2_hasNum h),
    List.filterMap_nil, List.append_nil]

theorem originalPricesOf_nil (t : List Char) (h : hasNumCurrency t = false) :
    originalPricesOf t = [] := by
  unfold originalPricesOf
  simp only [List.flatMap_cons, List.flatMap_nil,
    findAll_nil _ _ (matcher_none_of_noNum _ t patOrig1_hasNum h),
    findAll_nil _ _ (matcher_none_of_noNum _ t patOrig2_hasNum h),
    List.filterMap_nil, List.append_nil]

theorem currentPriceOf_none (t : List Char) (h : hasNumCurrency t = false) :
    currentPriceOf t = none := by
  unfold currentPriceOf sortedCandidatesOf
  rw [contextPricesOf_nil t h, candidatesOf_nil t h]
  rfl

/-- Claim C3 (amended): for every list of search results whose combined text
contains no number-plus-currency-unit occurrence, `extract_price_info` returns
a `PriceInfo` in which `current_price`, `original_price` and `final_price` are
all `none` (the percent-discount patterns can still set `discount_rate`, and
the literal free-shipping / cash-on-delivery phrases can still set
`shipping_cost`). -/
theorem C3_no_currency_number (search_results : List RawResult)
    (h : hasNumCurrency (combinedTextOf search_results) = false) :
    (extract_price_info search_results).current_price = none
    ∧ (extract_price_info search_results).original_price = none
    ∧ (extract_price_info search_results).final_price = none := by
  unfold extract_price_info
  dsimp only
  rw [currentPriceOf_none _ h, originalPricesOf_nil _ h]
  simp [pyTruthyZ, listMax?]

set_option maxRecDepth 1000000 in
/-- Counterexample for C3 as stated: the text "50% 할인 무료배송" contains no
number-plus-currency-unit occurrence, yet `extract_price_info` returns
`discount_rate = 50` (and `shipping_cost = 0`), not all-`None` fields. -/
theorem C3_counterexample :
    ¬ (∀ search_results : List RawResult,
        hasNumCurrency (combinedTextOf search_results) = false →
        extract_price_info search_results
          = { current_price := none, original_price := none, discount_rate := none,
              shipping_cost := none, final_price := none }) := by
  intro hall
  have h := hall [⟨"", "", "50% 할인 무료배송", none⟩] (by with_unfolding_all rfl)
  have hd : (extract_price_info [(⟨"", "", "50% 할인 무료배송", none⟩ : RawResult)]).discount_rate
      = some 50 := by with_unfolding_all rfl
  rw [h] at hd
  cases hd

set_option maxRecDepth 1000000 in
/-- Witness for C3: a text with no digits at all yields `none` for all three
price fields. -/
theorem C3_no_currency_number_witness :
    hasNumCurrency (combinedTextOf [(⟨"", "", "완전 무료배송 최고", none⟩ : RawResult)]) = false
    ∧ (extract_price_info [(⟨"", "", "완전 무료배송 최고", none⟩ : RawResult)]).current_price = none
    ∧ (extract_price_info [(⟨"", "", "완전 무료배송 최고", none⟩ : RawResult)]).original_price = none
    ∧ (extract_price_info [(⟨"", "", "완전 무료배송 최고", none⟩ : RawResult)]).final_price = none := by
  have h : hasNumCurrency (combinedTextOf [(⟨"", "", "완전 무료배송 최고", none⟩ : RawResult)])
      = false := by with_unfolding_all rfl
  obtain ⟨h1, h2, h3⟩ := C3_no_currency_number [⟨"", "", "완전 무료배송 최고", none⟩] h
  exact ⟨h, h1, h2, h3⟩

/-! ### Range lemmas for the reconciliation step -/

theorem foldl_min_mem (x : Int) (xs : List Int) : xs.foldl min x ∈ x :: xs := by
  induction xs generalizing x with
  | nil => simp
  | cons y ys ih =>
    rw [List.foldl_cons]
    have h := ih (min x y)
    rcases List.mem_cons.mp h with heq | hmem
    · rcases min_choice x y with hxy | hxy
      · rw [heq, hxy]; exact List.mem_cons_self _ _
      · rw [heq, hxy]; simp
    · simp [hmem]

theorem foldl_max_mem (x : Int) (xs : List Int) : xs.foldl max x ∈ x :: xs := by
  induction xs generalizing x with
  | nil => simp
  | cons y ys ih =>
    rw [List.foldl_cons]
    have h := ih (max x y)
    rcases List.mem_cons.mp h with heq | hmem
    · rcases max_choice x y with hxy | hxy
      · rw [heq, hxy]; exact List.mem_cons_self _ _
      · rw [heq, hxy]; simp
    · simp [hmem]

theorem listMin?_mem (l : List Int) (m : Int) (h : listMin? l = some m) : m ∈ l := by
  cases l with
  | nil => cases h
  | cons x xs =>
    unfold listMin? at h
    cases h
    exact foldl_min_mem x xs

theorem listMax?_mem (l : List Int) (m : Int) (h : listMax? l = some m) : m ∈ l := by
  cases l with
  | nil => cases h
  | cons x xs =>
    unfold listMax? at h
    cases h
    exact foldl_max_mem x xs

theorem priceInRange_range (cap : List Char) (p : Int) (h : priceInRange cap = some p) :
    5000 ≤ p ∧ p ≤ 5000000 := by
  unfold priceInRange at h
  cases hp : parseIntOpt (stripCommaDot cap) with
  | none => rw [hp] at h; cases h
  | some q =>
    rw [hp] at h
    dsimp only at h
    by_cases hq : 5000 ≤ q ∧ q ≤ 5000000
    · rw [if_pos hq] at h; cases h; exact hq
    · rw [if_neg hq] at h; cases h

theorem contextPricesOf_range (t : List Char) (p : Int) (h : p ∈ contextPricesOf t) :
    5000 ≤ p ∧ p ≤ 5000000 := by
  unfold contextPricesOf at h
  rw [List.mem_flatMap] at h
  obtain ⟨m, -, hp⟩ := h
  rw [List.mem_filterMap] at hp
  obtain ⟨cap, -, hc⟩ := hp
  exact priceInRange_range cap p hc

theorem candidateOf_range (t cap : List Char) (a b : Nat) (x : Int × Bool × Nat)
    (h : candidateOf t cap a b = some x) : 5000 ≤ x.1 ∧ x.1 ≤ 5000000 := by
  unfold candidateOf at h
  cases hp : parseIntOpt (stripCommaDot cap) with
  | none => rw [hp] at h; cases h
  | some price =>
    rw [hp] at h
    dsimp only at h
    by_cases hq : 5000 ≤ price ∧ price ≤ 5000000
    · rw [if_pos hq] at h
      split at h
      · cases h
      · cases h; exact hq
    · rw [if_neg hq] at h; cases h

theorem candidatesOf_range (t : List Char) (x : Int × Bool × Nat)
    (h : x ∈ candidatesOf t) : 5000 ≤ x.1 ∧ x.1 ≤ 5000000 := by
  unfold candidatesOf at h
  rw [List.mem_flatMap] at h
  obtain ⟨m, -, hp⟩ := h
  rw [List.mem_filterMap] at hp
  obtain ⟨y, -, hc⟩ := hp
  exact candidateOf_range t y.1 y.2.1 y.2.2 x hc

theorem mem_insertCand (x y : Int × Bool × Nat) (l : List (Int × Bool × Nat))
    (h : y ∈ insertCand x l) : y = x ∨ y ∈ l := by
  induction l with
  | nil => simpa [insertCand] using h
  | cons a u ih =>
    unfold insertCand at h
    split at h
    · rcases List.mem_cons.mp h with rfl | h2
      · exact Or.inl rfl
      · exact Or.inr h2
    · rcases List.mem_cons.mp h with rfl | h2
      · simp
      · rcases ih h2 with rfl | h3
        · exact Or.inl rfl
        · simp [h3]

theorem mem_sortedCandidatesOf (t : List Char) (x : Int × Bool × Nat)
    (h : x ∈ sortedCandidatesOf t) : x ∈ candidatesOf t := by
  unfold sortedCandidatesOf at h
  generalize candidatesOf t = l at h ⊢
  induction l with
  | nil => simpa using h
  | cons a u ih =>
    rw [List.foldr_cons] at h
    rcases mem_insertCand a x _ h with rfl | h2
    · simp
    · simp [ih h2]

theorem mem_insertAscInt (x y : Int) (l : List Int) (h : y ∈ insertAscInt x l) :
    y = x ∨ y ∈ l := by
  induction l with
  | nil => simpa [insertAscInt] using h
  | cons a u ih =>
    unfold insertAscInt at h
    split at h
    · rcases List.mem_cons.mp h with rfl | h2
      · exact Or.inl rfl
      · exact Or.inr h2
    · rcases List.mem_cons.mp h with rfl | h2
      · simp
      · rcases ih h2 with rfl | h3
        · exact Or.inl rfl
        · simp [h3]

theorem mem_dedupSortAsc (l : List Int) (y : Int) (h : y ∈ dedupSortAsc l) : y ∈ l := by
  unfold dedupSortAsc at h
  have haux : ∀ u : List Int, y ∈ u.foldr insertAscInt [] → y ∈ u := by
    intro u
    induction u with
    | nil => intro hh; simpa using hh
    | cons a v ih =>
      intro hh
      rw [List.foldr_cons] at hh
      rcases mem_insertAscInt a y _ hh with rfl | h2
      · simp
      · simp [ih h2]
  exact List.mem_dedup.mp (haux _ h)

theorem discountRatesOf_range (t : List Char) (d : Int) (h : d ∈ discountRatesOf t) :
    1 ≤ d ∧ d ≤ 99 := by
  unfold discountRatesOf at h
  rw [List.mem_flatMap] at h
  obtain ⟨m, -, hp⟩ := h
  rw [List.mem_filterMap] at hp
  obtain ⟨cap, -, hc⟩ := hp
  cases hq : parseIntOpt cap with
  | none => rw [hq] at hc; cases hc
  | some q =>
    rw [hq] at hc
    dsimp only at hc
    by_cases hr : 1 ≤ q ∧ q ≤ 99
    · rw [if_pos hr] at hc; cases hc; exact hr
    · rw [if_neg hr] at hc; cases hc

theorem currentPriceOf_range (t : List Char) (c : Int) (h : currentPriceOf t = some c) :
    5000 ≤ c ∧ c ≤ 5000000 := by
  unfold currentPriceOf at h
  cases hm : listMin? (contextPricesOf t) with
  | some m =>
    rw [hm] at h
    cases h
    exact contextPricesOf_range t c (listMin?_mem _ c hm)
  | none =>
    rw [hm] at h
    dsimp only at h
    by_cases hc0 : sortedCandidatesOf t = []
    · rw [if_pos hc0] at h; cases h
    · rw [if_neg hc0] at h
      cases hk : listMin? (((sortedCandidatesOf t).filter fun x => x.2.1).map fun x => x.1) with
      | some m =>
        rw [hk] at h
        cases h
        have hmem := listMin?_mem _ c hk
        rw [List.mem_map] at hmem
        obtain ⟨x, hx, rfl⟩ := hmem
        exact candidatesOf_range t x
          (mem_sortedCandidatesOf t x (List.mem_of_mem_filter hx))
      | none =>
        rw [hk] at h
        dsimp only at h
        cases hsp : dedupSortAsc ((sortedCandidatesOf t).map fun x => x.1) with
        | nil => rw [hsp] at h; cases h
        | cons a rest =>
          have hmema : a ∈ (sortedCandidatesOf t).map fun x => x.1 :=
            mem_dedupSortAsc _ a (by rw [hsp]; simp)
          cases rest with
          | nil =>
            rw [hsp] at h
            dsimp only at h
            cases h
            rw [List.mem_map] at hmema
            obtain ⟨x, hx, rfl⟩ := hmema
            exact candidatesOf_range t x (mem_sortedCandidatesOf t x hx)
          | cons b rest2 =>
            rw [hsp] at h
            dsimp only at h
            have hmemb : b ∈ (sortedCandidatesOf t).map fun x => x.1 :=
              mem_dedupSortAsc _ b (by rw [hsp]; simp)
            by_cases h5 : (5000 : Int) ≤ b
            · rw [if_pos h5] at h
              cases h
              rw [List.mem_map] at hmemb
              obtain ⟨x, hx, rfl⟩ := hmemb
              exact candidatesOf_range t x (mem_sortedCandidatesOf t x hx)
            · rw [if_neg h5] at h
              cases h
              rw [List.mem_map] at hmema
              obtain ⟨x, hx, rfl⟩ := hmema
              exact candidatesOf_range t x (mem_sortedCandidatesOf t x hx)

theorem floor_derived_ge (c d : Int) (hc : 1 ≤ c) (hd1 : 1 ≤ d) (hd2 : d ≤ 99) :
    c ≤ Int.floor ((c : Rat) / (1 - (d : Rat) / 100)) := by
  rw [Int.le_floor]
  have hd2q : (d : Rat) ≤ 99 := by exact_mod_cast hd2
  have hd1q : (1 : Rat) ≤ (d : Rat) := by exact_mod_cast hd1
  have hcq : (1 : Rat) ≤ (c : Rat) := by exact_mod_cast hc
  have hq : (0 : Rat) < 1 - (d : Rat) / 100 := by linarith
  rw [le_div_iff₀ hq]
  nlinarith [mul_pos (lt_of_lt_of_le zero_lt_one hcq)
    (by linarith : (0 : Rat) < (d : Rat) / 100)]

/-- When the text yields no original-price match, `original_price` can only be
set by the back-derivation from `current_price` and `discount_rate`. -/
theorem extract_price_reconciliation (rs : List RawResult)
    (hno : originalPricesOf (combinedTextOf rs) = []) :
    (extract_price_info rs).current_price = currentPriceOf (combinedTextOf rs)
    ∧ (extract_price_info rs).discount_rate
        = (listMax? (discountRatesOf (combinedTextOf rs))).map (fun d => (d : Rat))
    ∧ (extract_price_info rs).original_price
        = match currentPriceOf (combinedTextOf rs),
            listMax? (discountRatesOf (combinedTextOf rs)) with
          | some c, some d => some (Int.floor ((c : Rat) / (1 - (d : Rat) / 100)))
          | _, _ => none := by
  cases hcur : currentPriceOf (combinedTextOf rs) with
  | none =>
    unfold extract_price_info
    dsimp only
    rw [hno, hcur]
    simp [pyTruthyZ, listMax?]
  | some c =>
    have hc := currentPriceOf_range _ c hcur
    have hc0 : c ≠ 0 := by omega
    cases hdm : listMax? (discountRatesOf (combinedTextOf rs)) with
    | none =>
      unfold extract_price_info
      dsimp only
      rw [hno, hcur, hdm]
      simp [pyTruthyZ, pyTruthyQ, listMax?]
    | some d =>
      have hd := discountRatesOf_range _ d (listMax?_mem _ d hdm)
      have hd0 : (d : Rat) ≠ 0 := by
        exact_mod_cast (by omega : d ≠ 0)
      unfold extract_price_info
      dsimp only
      rw [hno, hcur, hdm]
      simp [pyTruthyZ, pyTruthyQ, listMax?, hc0, hd0]

set_option maxRecDepth 1000000 in
/-- Counterexample for C2 as stated: on the text
"판매가 300,000원 6,000원 정가" both prices are extracted independently and
`original_price = 6000 < current_price = 300000`. -/
theorem C2_counterexample :
    ¬ (∀ (search_results : List RawResult) (o c : Int),
        (extract_price_info search_results).original_price = some o →
        (extract_price_info search_results).current_price = some c →
        c ≤ o) := by
  intro hall
  have h := hall [⟨"", "", "판매가 300,000원 6,000원 정가", none⟩] 6000 300000
    (by with_unfolding_all rfl) (by with_unfolding_all rfl)
  omega

/-- Claim C2 (amended): when the text yields no original-price match (so that
`original_price` can only arise from the discount-rate back-derivation), if
both `original_price` and `current_price` are present then
`original_price ≥ current_price`. -/
theorem C2_original_ge_current (search_results : List RawResult)
    (hno : originalPricesOf (combinedTextOf search_results) = [])
    (o c : Int)
    (ho : (extract_price_info search_results).original_price = some o)
    (hc : (extract_price_info search_results).current_price = some c) :
    c ≤ o := by
  obtain ⟨h1, -, h3⟩ := extract_price_reconciliation search_results hno
  rw [h1] at hc
  rw [h3, hc] at ho
  cases hdm : listMax? (discountRatesOf (combinedTextOf search_results)) with
  | none => rw [hdm] at ho; cases ho
  | some d =>
    rw [hdm] at ho
    dsimp only at ho
    cases ho
    have hcr := currentPriceOf_range _ c hc
    have hdr := discountRatesOf_range _ d (listMax?_mem _ d hdm)
    exact floor_derived_ge c d (by omega) hdr.1 hdr.2

set_option maxRecDepth 1000000 in
/-- Witness for C2: on "판매가격: 10,000원 50% 할인" the original price is
back-derived as 20000 ≥ 10000. -/
theorem C2_original_ge_current_witness :
    originalPricesOf (combinedTextOf
        [(⟨"", "", "판매가격: 10,000원 50% 할인", none⟩ : RawResult)]) = []
    ∧ (extract_price_info [(⟨"", "", "판매가격: 10,000원 50% 할인", none⟩ : RawResult)]).original_price
        = some 20000
    ∧ (extract_price_info [(⟨"", "", "판매가격: 10,000원 50% 할인", none⟩ : RawResult)]).current_price
        = some 10000
    ∧ (10000 : Int) ≤ 20000 := by
  refine ⟨by with_unfolding_all rfl, by with_unfolding_all rfl, by with_unfolding_all rfl, ?_⟩
  exact C2_original_ge_current [⟨"", "", "판매가격: 10,000원 50% 할인", none⟩]
    (by with_unfolding_all rfl) 20000 10000
    (by with_unfolding_all rfl) (by with_unfolding_all rfl)

set_option maxRecDepth 1000000 in
/-- Counterexample for C4 as stated: on "판매가격: 5,002원 30% 할인" the source
computes `int(5002 / 0.7) = 7145` (truncation), while
`round(5002 / (1 - 30/100)) = 7146`. -/
theorem C4_counterexample :
    ¬ (∀ (search_results : List RawResult) (c : Int) (d : Rat),
        originalPricesOf (combinedTextOf search_results) = [] →
        (extract_price_info search_results).current_price = some c →
        (extract_price_info search_results).discount_rate = some d →
        (extract_price_info search_results).original_price
          = some (roundHalfEven ((c : Rat) / (1 - d / 100)))) := by
  intro hall
  have h := hall [⟨"", "", "판매가격: 5,002원 30% 할인", none⟩] 5002 30
    (by with_unfolding_all rfl) (by with_unfolding_all rfl) (by with_unfolding_all rfl)
  have h2 : (extract_price_info
      [(⟨"", "", "판매가격: 5,002원 30% 할인", none⟩ : RawResult)]).original_price
      = some 7145 := by with_unfolding_all rfl
  rw [h2] at h
  have hq : ((5002 : Int) : Rat) / (1 - (30 : Rat) / 100) = 50020 / 7 := by norm_num
  have h3 : roundHalfEven ((50020 : Rat) / 7) = 7146 := by
    have hf : Int.floor ((50020 : Rat) / 7) = 7145 := by
      rw [Int.floor_eq_iff]
      norm_num
    unfold roundHalfEven
    rw [hf]
    norm_num
  rw [hq, h3] at h
  cases h

/-- Claim C4 (amended): whenever `extract_price_info` establishes
`current_price` and `discount_rate` from the text but the text yields no
original price, the returned `original_price` equals the truncation
`int(current_price / (1 - discount_rate/100))`, i.e. the floor, not the
rounding. -/
theorem C4_derived_original (search_results : List RawResult)
    (hno : originalPricesOf (combinedTextOf search_results) = [])
    (c : Int) (d : Rat)
    (hc : (extract_price_info search_results).current_price = some c)
    (hd : (extract_price_info search_results).discount_rate = some d) :
    (extract_price_info search_results).original_price
      = some (Int.floor ((c : Rat) / (1 - d / 100))) := by
  obtain ⟨h1, h2, h3⟩ := extract_price_reconciliation search_results hno
  rw [h1] at hc
  rw [h2] at hd
  rw [h3, hc]
  cases hdm : listMax? (discountRatesOf (combinedTextOf search_results)) with
  | none => rw [hdm] at hd; cases hd
  | some d0 =>
    rw [hdm] at hd
    simp at hd
    dsimp only
    rw [← hd]

set_option maxRecDepth 1000000 in
/-- Witness for C4: on "판매가격: 10,000원 50% 할인" the derived original price
is `⌊10000 / 0.5⌋ = 20000`. -/
theorem C4_derived_original_witness :
    (extract_price_info [(⟨"", "", "판매가격: 10,000원 50% 할인", none⟩ : RawResult)]).original_price
        = some (Int.floor ((10000 : Int) / (1 - (50 : Rat) / 100)))
    ∧ Int.floor (((10000 : Int) : Rat) / (1 - (50 : Rat) / 100)) = 20000 := by
  constructor
  · exact C4_derived_original [⟨"", "", "판매가격: 10,000원 50% 할인", none⟩]
      (by with_unfolding_all rfl) 10000 50
      (by with_unfolding_all rfl) (by with_unfolding_all rfl)
  · norm_num
